import Mathlib

/-!
Verification of the subscription/timer core of `react-native-interaction-provider`
(`src/interactionProvider.js`, `src/subscription.js`, `src/index.js`).

The embedding models the provider together with the JavaScript runtime:
a heap of subscription objects, the provider's live array, the runtime's
queue of scheduled `setTimeout` callbacks, a simulated clock and a trace of
observable callback invocations.  A user-supplied `onActive` callback is
modelled by its observable effect on the registry: the list of subscription
ids whose unsubscribe handles it invokes when called (an empty list is a
callback that only gets notified).  `onInactive` callbacks are modelled by
presence alone.
-/

namespace RNIP

/-- An observable callback invocation: subscription `sid` had its `onActive`
(`isActive = true`) or `onInactive` (`isActive = false`) callback invoked at
simulated time `time`. -/
structure Event where
  sid : Nat
  isActive : Bool
  time : Nat
  deriving DecidableEq, Repr

/-- A deferred callback registered with the runtime by `setTimeout`: an opaque
handle `id`, the subscription it belongs to, and the absolute time at which it
is scheduled to fire. -/
structure Timer where
  id : Nat
  subId : Nat
  deadline : Nat
  deriving DecidableEq, Repr

/-- `InteractionSubscription` (src/subscription.js): the duration, the two
optional callbacks and the `this.timeout` handle field. -/
structure InteractionSubscription where
  duration : Nat
  onActive : Option (List Nat)
  onInactive : Bool
  timeout : Option Timer
  deriving DecidableEq, Repr

/-- The provider state (src/interactionProvider.js) together with the runtime:
`subs` is the heap of all subscription objects ever created (a subscription id
is an index into it), `subscriptions` is the provider's live array
(`this.subscriptions`) holding ids in registration order, `timers` is the
runtime's queue of scheduled deferred callbacks, `nextHandle` the next fresh
timer handle, `now` the simulated clock and `events` the trace. -/
structure World where
  subs : List InteractionSubscription
  subscriptions : List Nat
  timers : List Timer
  nextHandle : Nat
  now : Nat
  events : List Event
  deriving DecidableEq, Repr

/-- The `this.timeout` field of subscription `sid`. -/
def timeoutOf (w : World) (sid : Nat) : Option Timer :=
  (w.subs[sid]?).bind InteractionSubscription.timeout

/-- `isPending()` (src/subscription.js line 52): `!!this.timeout`. -/
def isPending (w : World) (sid : Nat) : Bool :=
  (timeoutOf w sid).isSome

/-- `clearTimeout()` (src/subscription.js lines 78-83): if a timer handle is
stored, cancel the scheduled callback with that handle and null the field;
otherwise do nothing. -/
def clearTimeout (w : World) (sid : Nat) : World :=
  match w.subs[sid]? with
  | none => w
  | some s =>
    match s.timeout with
    | none => w
    | some t =>
      { w with timers := w.timers.filter (fun x => x.id != t.id),
               subs := w.subs.set sid { s with timeout := none } }

/-- `refreshTimeout()` (src/subscription.js lines 63-70): clear any existing
timer, then schedule a fresh deferred callback `duration` from now and store
its handle. -/
def refreshTimeout (w : World) (sid : Nat) : World :=
  let w1 := clearTimeout w sid
  match w1.subs[sid]? with
  | none => w1
  | some s =>
    { w1 with subs := w1.subs.set sid { s with timeout := some ⟨w1.nextHandle, sid, w1.now + s.duration⟩ },
              timers := w1.timers ++ [⟨w1.nextHandle, sid, w1.now + s.duration⟩],
              nextHandle := w1.nextHandle + 1 }

/-- First-occurrence removal: `indexOf` followed by `splice(index, 1)`, with a
not-found index being a no-op (src/interactionProvider.js lines 69-73). -/
def removeFromList : List Nat → Nat → List Nat
  | [], _ => []
  | s :: rest, x => if s = x then rest else s :: removeFromList rest x

/-- The unsubscribe handle returned by `subscribe`
(src/interactionProvider.js lines 68-74): clear the captured subscription's
timer and splice it out of the live array when found. -/
def remove (w : World) (sid : Nat) : World :=
  let w1 := clearTimeout w sid
  { w1 with subscriptions := removeFromList w1.subscriptions sid }

/-- `active()` (src/subscription.js lines 28-32): when an `onActive` callback
is present, invoke it.  The invocation is recorded in the trace and the
modelled callback body then invokes the unsubscribe handles it holds. -/
def active (w : World) (sid : Nat) : World :=
  match w.subs[sid]? with
  | none => w
  | some s =>
    match s.onActive with
    | none => w
    | some handles =>
      handles.foldl remove { w with events := w.events ++ [⟨sid, true, w.now⟩] }

/-- `inactive()` (src/subscription.js lines 40-44): when an `onInactive`
callback is present, invoke it (recorded at the time the deferred callback
fires). -/
def inactive (w : World) (sid : Nat) (time : Nat) : World :=
  match w.subs[sid]? with
  | none => w
  | some s =>
    if s.onInactive then { w with events := w.events ++ [⟨sid, false, time⟩] } else w

/-- One execution of the `forEach` body of `onPanResponderCapture`
(src/interactionProvider.js lines 134-139): if the subscription is not
pending, call `active()`; then refresh its timer. -/
def visitSubscription (w : World) (sid : Nat) : World :=
  let w1 := if isPending w sid then w else active w sid
  refreshTimeout w1 sid

/-- `Array.prototype.forEach` over the live array: the length is read once up
front, each index is checked against the current array before the body runs,
and the body reads the current array, so mutation by a callback is visible
mid-iteration.  The fuel argument equals the cached length, which bounds the
number of iterations. -/
def gestureIter : Nat → World → Nat → Nat → World
  | 0, w, _, _ => w
  | n + 1, w, len, k =>
    if k < len then
      match w.subscriptions[k]? with
      | none => gestureIter n w len (k + 1)
      | some sid => gestureIter n (visitSubscription w sid) len (k + 1)
    else w

/-- `onPanResponderCapture()` (src/interactionProvider.js lines 133-142):
iterate the live subscriptions, activating the non-pending ones and
refreshing every timer, then return `false` so the gesture is never
captured. -/
def onPanResponderCapture (w : World) : World × Bool :=
  (gestureIter w.subscriptions.length w w.subscriptions.length 0, false)

/-- `subscribe(duration, onActive, onInactive)` (src/interactionProvider.js
lines 56-76): construct a subscription, push it onto the live array,
immediately refresh its timer, and return it.  The returned id stands for the
subscription captured by the closure; the unsubscribe handle is `remove`
applied to it. -/
def subscribe (w : World) (duration : Nat) (onActive : Option (List Nat))
    (onInactive : Bool) : World × Nat :=
  let sid := w.subs.length
  let w1 := { w with subs := w.subs ++ [⟨duration, onActive, onInactive, none⟩],
                     subscriptions := w.subscriptions ++ [sid] }
  (refreshTimeout w1 sid, sid)

/-- `subscribeForInactivity(duration, onInactive)` (src/interactionProvider.js
lines 86-88): `this.subscribe(duration, null, onInactive)`. -/
def subscribeForInactivity (w : World) (duration : Nat) (onInactive : Bool) :
    World × Nat :=
  subscribe w duration none onInactive

/-- `subscribeForActivity(duration, onActive)` (src/interactionProvider.js
lines 98-100): `this.subscribe(duration, onActive, null)`. -/
def subscribeForActivity (w : World) (duration : Nat)
    (onActive : Option (List Nat)) : World × Nat :=
  subscribe w duration onActive false

/-- `stopInactiveTimer()` (src/interactionProvider.js lines 158-160). -/
def stopInactiveTimer (w : World) : World :=
  w.subscriptions.foldl clearTimeout w

/-- `refreshInactiveTimer()` (src/interactionProvider.js lines 167-169). -/
def refreshInactiveTimer (w : World) : World :=
  w.subscriptions.foldl refreshTimeout w

/-- `startInactiveTimer()` (src/interactionProvider.js lines 149-151). -/
def startInactiveTimer (w : World) : World :=
  refreshInactiveTimer w

/-- Fire one scheduled timer: the runtime removes it from the queue and runs
the deferred callback installed by `refreshTimeout`, which calls `inactive()`
and then `clearTimeout()` (src/subscription.js lines 66-69). -/
def fireTimer (w : World) (t : Timer) : World :=
  let w1 := { w with timers := w.timers.filter (fun x => x.id != t.id),
                     now := max w.now t.deadline }
  clearTimeout (inactive w1 t.subId t.deadline) t.subId

/-- The earliest-deadline timer of a list, ties resolved in favour of the
earlier entry, matching the runtime's insertion order for equal deadlines. -/
def minDeadline : List Timer → Option Timer
  | [] => none
  | t :: ts =>
    match minDeadline ts with
    | none => some t
    | some b => if t.deadline ≤ b.deadline then some t else some b

/-- The scheduled timer the runtime fires next when the clock is run up to
`target`: the earliest due one. -/
def pickDue (timers : List Timer) (target : Nat) : Option Timer :=
  minDeadline (timers.filter (fun t => decide (t.deadline ≤ target)))

/-- Fire every due timer, earliest first.  Each firing removes a timer from
the queue and schedules nothing, so a fuel of the queue length suffices. -/
def advanceLoop : Nat → World → Nat → World
  | 0, w, _ => w
  | fuel + 1, w, target =>
    match pickDue w.timers target with
    | none => w
    | some t => advanceLoop fuel (fireTimer w t) target

/-- Run the simulated clock forward to `target`, firing every due deferred
callback in deadline order, as the single-threaded runtime does. -/
def advanceTo (w : World) (target : Nat) : World :=
  let w1 := advanceLoop w.timers.length w target
  { w1 with now := max w1.now target }

/-- The operations the environment can perform against a provider: the public
API calls, a gesture-capture notification, the bulk timer calls of the
mount/unmount hooks, and running the clock. -/
inductive Op where
  | subscribe (duration : Nat) (onActive : Option (List Nat)) (onInactive : Bool)
  | remove (sid : Nat)
  | gesture
  | stopAll
  | refreshAll
  | advance (target : Nat)
  deriving DecidableEq, Repr

def step (w : World) : Op → World
  | .subscribe d a i => (subscribe w d a i).1
  | .remove sid => remove w sid
  | .gesture => (onPanResponderCapture w).1
  | .stopAll => stopInactiveTimer w
  | .refreshAll => refreshInactiveTimer w
  | .advance t => advanceTo w t

def run (w : World) (ops : List Op) : World := ops.foldl step w

/-- A freshly constructed `InteractionProvider`: `this.subscriptions = []`
(src/interactionProvider.js line 30), no scheduled timers, clock at 0. -/
def initWorld : World := ⟨[], [], [], 0, 0, []⟩

/-- The `InteractionContainer` constructor (src/index.js lines 75-92): it
builds the default `InactivitySubscription` from the `timeout` prop with both
`onActive` and `onInactive` present and stores it in `this.subscriptions`,
without calling `refreshTimeout` anywhere up to and including mount
(`componentWillMount` only creates the PanResponder). -/
def containerConstructor (timeout : Nat) : World :=
  ⟨[⟨timeout, some [], true, none⟩], [0], [], 0, 0, []⟩

/-- The trace restricted to subscription `sid`. -/
def evFor (events : List Event) (sid : Nat) : List Event :=
  events.filter (fun e => e.sid == sid)

/-- How many `onActive` invocations of subscription `sid` the trace holds. -/
def activeCount (events : List Event) (sid : Nat) : Nat :=
  (events.filter (fun e => e.sid == sid && e.isActive)).length

/-- How many `onInactive` invocations of subscription `sid` the trace holds. -/
def inactiveCount (events : List Event) (sid : Nat) : Nat :=
  (events.filter (fun e => e.sid == sid && !e.isActive)).length

/-- A callback that does not re-enter the registry: absent, or present with no
unsubscribe effects. -/
def PureCb (o : Option (List Nat)) : Prop := o = none ∨ o = some []

/-- No subscription's callback re-enters the registry. -/
def PureWorld (w : World) : Prop := ∀ s ∈ w.subs, PureCb s.onActive

/-- An operation that registers only non-re-entrant callbacks. -/
def opPure : Op → Prop
  | .subscribe _ a _ => PureCb a
  | _ => True

/-- Well-formedness of a provider state: live ids point into the heap, the
live array holds no duplicates, scheduled handles are distinct, and every
scheduled timer is exactly the one stored in its subscription's `timeout`
field, with a handle below the fresh-handle counter. -/
def WF (w : World) : Prop :=
  (∀ sid ∈ w.subscriptions, sid < w.subs.length) ∧
  w.subscriptions.Nodup ∧
  (w.timers.map Timer.id).Nodup ∧
  (∀ t ∈ w.timers, t.id < w.nextHandle ∧ t.subId < w.subs.length ∧
    timeoutOf w t.subId = some t)

instance (o : Option (List Nat)) : Decidable (PureCb o) := by
  unfold PureCb
  infer_instance

instance (w : World) : Decidable (PureWorld w) := by
  unfold PureWorld
  infer_instance

instance (w : World) : Decidable (WF w) := by
  unfold WF
  infer_instance

/-! ### List helpers -/

theorem removeFromList_sublist (l : List Nat) (x : Nat) :
    List.Sublist (removeFromList l x) l := by
  induction l with
  | nil => simp [removeFromList]
  | cons a rest ih =>
    simp only [removeFromList]
    by_cases h : a = x
    · simp only [h, if_pos rfl]
      exact List.sublist_cons_self x rest
    · simp only [if_neg h]
      exact ih.cons₂ a

theorem mem_of_mem_removeFromList {l : List Nat} {x y : Nat}
    (h : y ∈ removeFromList l x) : y ∈ l :=
  (removeFromList_sublist l x).subset h

theorem not_mem_removeFromList_self {l : List Nat} {x : Nat} (hnd : l.Nodup) :
    x ∉ removeFromList l x := by
  induction l with
  | nil => simp [removeFromList]
  | cons a rest ih =>
    simp only [removeFromList]
    rcases List.nodup_cons.mp hnd with ⟨ha, hrest⟩
    by_cases h : a = x
    · simp only [h, if_pos rfl]
      exact h ▸ ha
    · simp only [if_neg h]
      intro hx
      rcases List.mem_cons.mp hx with rfl | hx
      · exact h rfl
      · exact ih hrest hx

theorem removeFromList_of_not_mem {l : List Nat} {x : Nat} (h : x ∉ l) :
    removeFromList l x = l := by
  induction l with
  | nil => rfl
  | cons a rest ih =>
    simp only [removeFromList]
    have hax : ¬a = x := fun he => h (he ▸ List.mem_cons_self a rest)
    rw [if_neg hax, ih (fun hx => h (List.mem_cons_of_mem a hx))]

theorem getElem?_some_lt {α : Type} {l : List α} {n : Nat} {a : α}
    (h : l[n]? = some a) : n < l.length := by
  by_contra hc
  rw [List.getElem?_eq_none (Nat.le_of_not_lt hc)] at h
  exact Option.noConfusion h

/-! ### Projection lemmas for the primitive operations -/

theorem clearTimeout_subscriptions (w : World) (sid : Nat) :
    (clearTimeout w sid).subscriptions = w.subscriptions := by
  unfold clearTimeout
  split
  · rfl
  · split <;> rfl

theorem clearTimeout_now (w : World) (sid : Nat) :
    (clearTimeout w sid).now = w.now := by
  unfold clearTimeout
  split
  · rfl
  · split <;> rfl

theorem clearTimeout_events (w : World) (sid : Nat) :
    (clearTimeout w sid).events = w.events := by
  unfold clearTimeout
  split
  · rfl
  · split <;> rfl

theorem clearTimeout_nextHandle (w : World) (sid : Nat) :
    (clearTimeout w sid).nextHandle = w.nextHandle := by
  unfold clearTimeout
  split
  · rfl
  · split <;> rfl

theorem clearTimeout_subs_length (w : World) (sid : Nat) :
    (clearTimeout w sid).subs.length = w.subs.length := by
  unfold clearTimeout
  split
  · rfl
  · split
    · rfl
    · simp [List.length_set]

theorem clearTimeout_getElem_ne (w : World) {sid sid2 : Nat} (h : sid ≠ sid2) :
    (clearTimeout w sid).subs[sid2]? = w.subs[sid2]? := by
  unfold clearTimeout
  split
  · rfl
  · split
    · rfl
    · simp only
      exact List.getElem?_set_ne h

theorem clearTimeout_getElem_self (w : World) {sid : Nat}
    {s : InteractionSubscription} (hs : w.subs[sid]? = some s) :
    (clearTimeout w sid).subs[sid]? =
      some ⟨s.duration, s.onActive, s.onInactive, none⟩ := by
  unfold clearTimeout
  rw [hs]
  cases ht : s.timeout with
  | none =>
    simp only [ht]
    show w.subs[sid]? = _
    rw [hs]
    cases s
    simp_all
  | some t =>
    simp only [ht]
    show (w.subs.set sid _)[sid]? = _
    rw [List.getElem?_set_eq_of_lt _ (getElem?_some_lt hs)]

theorem clearTimeout_timers_sublist (w : World) (sid : Nat) :
    List.Sublist (clearTimeout w sid).timers w.timers := by
  unfold clearTimeout
  split
  · exact List.Sublist.refl _
  · split
    · exact List.Sublist.refl _
    · exact List.filter_sublist _

theorem clearTimeout_timeoutOf_self (w : World) (sid : Nat) :
    timeoutOf (clearTimeout w sid) sid = none := by
  cases hs : w.subs[sid]? with
  | none =>
    have : (clearTimeout w sid).subs[sid]? = none := by
      unfold clearTimeout
      rw [hs]
      exact hs
    simp [timeoutOf, this]
  | some s =>
    rw [timeoutOf, clearTimeout_getElem_self w hs]
    rfl

theorem refreshTimeout_eq_of_some (w : World) {sid : Nat}
    {s : InteractionSubscription} (hs : w.subs[sid]? = some s) :
    refreshTimeout w sid =
      { clearTimeout w sid with
        subs := (clearTimeout w sid).subs.set sid
          ⟨s.duration, s.onActive, s.onInactive,
            some ⟨w.nextHandle, sid, w.now + s.duration⟩⟩,
        timers := (clearTimeout w sid).timers ++
          [⟨w.nextHandle, sid, w.now + s.duration⟩],
        nextHandle := w.nextHandle + 1 } := by
  simp only [refreshTimeout]
  rw [clearTimeout_getElem_self w hs, clearTimeout_nextHandle, clearTimeout_now]

theorem refreshTimeout_eq_of_none (w : World) {sid : Nat}
    (hs : w.subs[sid]? = none) : refreshTimeout w sid = w := by
  have hc : clearTimeout w sid = w := by
    unfold clearTimeout
    rw [hs]
  simp only [refreshTimeout, hc, hs]

theorem refreshTimeout_subscriptions (w : World) (sid : Nat) :
    (refreshTimeout w sid).subscriptions = w.subscriptions := by
  cases hs : w.subs[sid]? with
  | none => rw [refreshTimeout_eq_of_none w hs]
  | some s => rw [refreshTimeout_eq_of_some w hs]
              exact clearTimeout_subscriptions w sid

theorem refreshTimeout_now (w : World) (sid : Nat) :
    (refreshTimeout w sid).now = w.now := by
  cases hs : w.subs[sid]? with
  | none => rw [refreshTimeout_eq_of_none w hs]
  | some s => rw [refreshTimeout_eq_of_some w hs]
              exact clearTimeout_now w sid

theorem refreshTimeout_events (w : World) (sid : Nat) :
    (refreshTimeout w sid).events = w.events := by
  cases hs : w.subs[sid]? with
  | none => rw [refreshTimeout_eq_of_none w hs]
  | some s => rw [refreshTimeout_eq_of_some w hs]
              exact clearTimeout_events w sid

theorem refreshTimeout_subs_length (w : World) (sid : Nat) :
    (refreshTimeout w sid).subs.length = w.subs.length := by
  cases hs : w.subs[sid]? with
  | none => rw [refreshTimeout_eq_of_none w hs]
  | some s =>
    rw [refreshTimeout_eq_of_some w hs]
    simp only [List.length_set]
    exact clearTimeout_subs_length w sid

theorem refreshTimeout_getElem_ne (w : World) {sid sid2 : Nat} (h : sid ≠ sid2) :
    (refreshTimeout w sid).subs[sid2]? = w.subs[sid2]? := by
  cases hs : w.subs[sid]? with
  | none => rw [refreshTimeout_eq_of_none w hs]
  | some s =>
    rw [refreshTimeout_eq_of_some w hs]
    show ((clearTimeout w sid).subs.set sid _)[sid2]? = _
    rw [List.getElem?_set_ne h]
    exact clearTimeout_getElem_ne w h

theorem refreshTimeout_getElem_self (w : World) {sid : Nat}
    {s : InteractionSubscription} (hs : w.subs[sid]? = some s) :
    (refreshTimeout w sid).subs[sid]? =
      some ⟨s.duration, s.onActive, s.onInactive,
        some ⟨w.nextHandle, sid, w.now + s.duration⟩⟩ := by
  rw [refreshTimeout_eq_of_some w hs]
  show ((clearTimeout w sid).subs.set sid _)[sid]? = _
  rw [List.getElem?_set_eq_of_lt]
  rw [clearTimeout_subs_length]
  exact getElem?_some_lt hs

theorem refreshTimeout_nextHandle_of_some (w : World) {sid : Nat}
    {s : InteractionSubscription} (hs : w.subs[sid]? = some s) :
    (refreshTimeout w sid).nextHandle = w.nextHandle + 1 := by
  rw [refreshTimeout_eq_of_some w hs]

theorem refreshTimeout_armed_mem (w : World) {sid : Nat}
    {s : InteractionSubscription} (hs : w.subs[sid]? = some s) :
    (⟨w.nextHandle, sid, w.now + s.duration⟩ : Timer) ∈
      (refreshTimeout w sid).timers := by
  rw [refreshTimeout_eq_of_some w hs]
  simp

theorem refreshTimeout_timers_mem (w : World) (sid : Nat) :
    ∀ t ∈ (refreshTimeout w sid).timers, t ∈ w.timers ∨ t.subId = sid := by
  cases hs : w.subs[sid]? with
  | none =>
    rw [refreshTimeout_eq_of_none w hs]
    exact fun t ht => Or.inl ht
  | some s =>
    rw [refreshTimeout_eq_of_some w hs]
    intro t ht
    rcases List.mem_append.mp ht with ht | ht
    · exact Or.inl ((clearTimeout_timers_sublist w sid).subset ht)
    · rcases List.mem_singleton.mp ht with rfl
      exact Or.inr rfl

theorem remove_subs (w : World) (sid : Nat) :
    (remove w sid).subs = (clearTimeout w sid).subs := rfl

theorem remove_timers (w : World) (sid : Nat) :
    (remove w sid).timers = (clearTimeout w sid).timers := rfl

theorem remove_events (w : World) (sid : Nat) :
    (remove w sid).events = w.events := clearTimeout_events w sid

theorem remove_now (w : World) (sid : Nat) :
    (remove w sid).now = w.now := clearTimeout_now w sid

theorem remove_nextHandle (w : World) (sid : Nat) :
    (remove w sid).nextHandle = w.nextHandle := clearTimeout_nextHandle w sid

theorem remove_subs_length (w : World) (sid : Nat) :
    (remove w sid).subs.length = w.subs.length := clearTimeout_subs_length w sid

theorem remove_subscriptions (w : World) (sid : Nat) :
    (remove w sid).subscriptions = removeFromList w.subscriptions sid := by
  show removeFromList (clearTimeout w sid).subscriptions sid = _
  rw [clearTimeout_subscriptions]

theorem active_pure_eq (w : World) {sid : Nat} {s : InteractionSubscription}
    (hs : w.subs[sid]? = some s) (hp : PureCb s.onActive) :
    active w sid =
      { w with events := w.events ++
          (if s.onActive.isSome then [⟨sid, true, w.now⟩] else []) } := by
  unfold active
  rw [hs]
  rcases hp with hp | hp <;> simp [hp]

theorem inactive_eq_of_some (w : World) {sid : Nat} {s : InteractionSubscription}
    (hs : w.subs[sid]? = some s) (time : Nat) :
    inactive w sid time =
      { w with events := w.events ++
          (if s.onInactive then [⟨sid, false, time⟩] else []) } := by
  unfold inactive
  rw [hs]
  cases hi : s.onInactive <;> simp [hi]

theorem inactive_eq_of_none (w : World) {sid : Nat}
    (hs : w.subs[sid]? = none) (time : Nat) : inactive w sid time = w := by
  unfold inactive
  rw [hs]

theorem timeoutOf_eq_of_some {w : World} {sid : Nat} {s : InteractionSubscription}
    (hs : w.subs[sid]? = some s) : timeoutOf w sid = s.timeout := by
  simp [timeoutOf, hs]

theorem isPending_eq_of_some {w : World} {sid : Nat} {s : InteractionSubscription}
    (hs : w.subs[sid]? = some s) : isPending w sid = s.timeout.isSome := by
  simp [isPending, timeoutOf_eq_of_some hs]

/-- What one `forEach` body execution does to the visited subscription when
its callback does not re-enter the registry: the pre-state pending check
decides whether `onActive` is invoked (recorded in the trace), and in every
case the timer is then re-armed `duration` from now with a fresh handle. -/
theorem visit_pure_spec (w : World) {sid : Nat} {s : InteractionSubscription}
    (hs : w.subs[sid]? = some s) (hp : PureCb s.onActive) :
    (visitSubscription w sid).subs[sid]? =
        some ⟨s.duration, s.onActive, s.onInactive,
          some ⟨w.nextHandle, sid, w.now + s.duration⟩⟩ ∧
    (visitSubscription w sid).events = w.events ++
        (if s.timeout = none ∧ s.onActive.isSome
         then [⟨sid, true, w.now⟩] else []) ∧
    (visitSubscription w sid).nextHandle = w.nextHandle + 1 ∧
    (visitSubscription w sid).now = w.now ∧
    (visitSubscription w sid).subscriptions = w.subscriptions ∧
    (visitSubscription w sid).subs.length = w.subs.length ∧
    (∀ sid2, sid ≠ sid2 →
      (visitSubscription w sid).subs[sid2]? = w.subs[sid2]?) ∧
    (∀ t ∈ (visitSubscription w sid).timers, t ∈ w.timers ∨ t.subId = sid) := by
  have hpend : isPending w sid = s.timeout.isSome := isPending_eq_of_some hs
  cases ht : s.timeout with
  | some t0 =>
    have hv : visitSubscription w sid = refreshTimeout w sid := by
      unfold visitSubscription
      rw [hpend, ht]
      simp
    rw [hv]
    refine ⟨refreshTimeout_getElem_self w hs, ?_,
      refreshTimeout_nextHandle_of_some w hs, refreshTimeout_now w sid,
      refreshTimeout_subscriptions w sid, refreshTimeout_subs_length w sid,
      fun sid2 h => refreshTimeout_getElem_ne w h,
      refreshTimeout_timers_mem w sid⟩
    rw [refreshTimeout_events w sid]
    simp [ht]
  | none =>
    have hv : visitSubscription w sid =
        refreshTimeout { w with events := w.events ++
          (if s.onActive.isSome then [⟨sid, true, w.now⟩] else []) } sid := by
      unfold visitSubscription
      rw [hpend, ht]
      simp only [Option.isSome_none, Bool.false_eq_true, if_false]
      rw [active_pure_eq w hs hp]
    have hs2 : ({ w with events := w.events ++
        (if s.onActive.isSome then [⟨sid, true, w.now⟩] else []) } :
          World).subs[sid]? = some s := hs
    rw [hv]
    refine ⟨refreshTimeout_getElem_self _ hs2, ?_,
      refreshTimeout_nextHandle_of_some _ hs2, refreshTimeout_now _ sid,
      refreshTimeout_subscriptions _ sid, refreshTimeout_subs_length _ sid,
      fun sid2 h => refreshTimeout_getElem_ne _ h,
      refreshTimeout_timers_mem _ sid⟩
    rw [refreshTimeout_events _ sid]
    simp [ht]

/-! ### Preservation of well-formedness -/

theorem foldl_preserve {α : Type} (f : World → α → World) (P : World → Prop)
    (hf : ∀ w a, P w → P (f w a)) :
    ∀ (l : List α) (w : World), P w → P (l.foldl f w) := by
  intro l
  induction l with
  | nil => exact fun w h => h
  | cons a rest ih => exact fun w h => ih _ (hf w a h)

theorem clearTimeout_WF {w : World} (h : WF w) (sid : Nat) :
    WF (clearTimeout w sid) := by
  obtain ⟨hA, hB, hC, hD⟩ := h
  cases hsub : w.subs[sid]? with
  | none =>
    have he : clearTimeout w sid = w := by
      unfold clearTimeout
      rw [hsub]
    rw [he]
    exact ⟨hA, hB, hC, hD⟩
  | some s =>
    cases hto : s.timeout with
    | none =>
      have he : clearTimeout w sid = w := by
        unfold clearTimeout
        simp only [hsub, hto]
      rw [he]
      exact ⟨hA, hB, hC, hD⟩
    | some t0 =>
      have he : clearTimeout w sid =
          { w with timers := w.timers.filter (fun x => x.id != t0.id),
                   subs := w.subs.set sid { s with timeout := none } } := by
        unfold clearTimeout
        simp only [hsub, hto]
      rw [he]
      refine ⟨?_, hB, hC.sublist ((List.filter_sublist _).map _), ?_⟩
      · intro sid2 hmem
        simpa [List.length_set] using hA sid2 hmem
      · intro t htmem
        obtain ⟨htm, hid⟩ := List.mem_filter.mp htmem
        obtain ⟨h1, h2, h3⟩ := hD t htm
        refine ⟨h1, by simpa [List.length_set] using h2, ?_⟩
        have hne : t.subId ≠ sid := by
          intro he2
          rw [he2, timeoutOf_eq_of_some hsub, hto] at h3
          have : t = t0 := by
            injection h3 with h4
            exact h4.symm
          rw [this] at hid
          simp at hid
        show (((w.subs.set sid _)[t.subId]?).bind _) = some t
        rw [List.getElem?_set_ne (fun hh => hne hh.symm)]
        exact h3

theorem refreshTimeout_WF {w : World} (h : WF w) (sid : Nat) :
    WF (refreshTimeout w sid) := by
  cases hsub : w.subs[sid]? with
  | none =>
    rw [refreshTimeout_eq_of_none w hsub]
    exact h
  | some s =>
    obtain ⟨hA, hB, hC, hD⟩ := clearTimeout_WF h sid
    have hnone := clearTimeout_timeoutOf_self w sid
    have hnosid : ∀ t ∈ (clearTimeout w sid).timers, t.subId ≠ sid := by
      intro t ht he
      obtain ⟨_, _, h3⟩ := hD t ht
      rw [he, hnone] at h3
      exact Option.noConfusion h3
    have hnh : (clearTimeout w sid).nextHandle = w.nextHandle :=
      clearTimeout_nextHandle w sid
    rw [refreshTimeout_eq_of_some w hsub]
    refine ⟨?_, hB, ?_, ?_⟩
    · intro sid2 hmem
      simpa [List.length_set] using hA sid2 hmem
    · rw [List.map_append, List.nodup_append]
      refine ⟨hC, List.nodup_singleton _, fun a2 ha2 hb2 => ?_⟩
      obtain ⟨t, htmem, rfl⟩ := List.mem_map.mp ha2
      obtain ⟨h1, _, _⟩ := hD t htmem
      rw [hnh] at h1
      simp only [List.map_cons, List.map_nil, List.mem_singleton] at hb2
      omega
    · intro t htmem
      rcases List.mem_append.mp htmem with htm | htm
      · obtain ⟨h1, h2, h3⟩ := hD t htm
        have hne : t.subId ≠ sid := hnosid t htm
        have h1b : t.id < w.nextHandle := by rw [hnh] at h1; exact h1
        refine ⟨Nat.lt_succ_of_lt h1b, by simpa [List.length_set] using h2, ?_⟩
        show ((((clearTimeout w sid).subs.set sid _)[t.subId]?).bind _) = some t
        rw [List.getElem?_set_ne (fun hh => hne hh.symm)]
        exact h3
      · rcases List.mem_singleton.mp htm with rfl
        refine ⟨Nat.lt_succ_self _, ?_, ?_⟩
        · simpa [List.length_set, clearTimeout_subs_length] using getElem?_some_lt hsub
        · show ((((clearTimeout w sid).subs.set sid _)[sid]?).bind _) = _
          rw [List.getElem?_set_eq_of_lt]
          · rfl
          · rw [clearTimeout_subs_length]
            exact getElem?_some_lt hsub

theorem remove_WF {w : World} (h : WF w) (sid : Nat) : WF (remove w sid) := by
  obtain ⟨hA, hB, hC, hD⟩ := clearTimeout_WF h sid
  refine ⟨?_, ?_, hC, hD⟩
  · intro sid2 hmem
    rw [remove_subscriptions] at hmem
    apply hA
    rw [clearTimeout_subscriptions]
    exact mem_of_mem_removeFromList hmem
  · rw [remove_subscriptions]
    have : List.Sublist (removeFromList w.subscriptions sid) w.subscriptions :=
      removeFromList_sublist _ _
    rw [clearTimeout_subscriptions] at hB
    exact hB.sublist this

theorem active_WF {w : World} (h : WF w) (sid : Nat) : WF (active w sid) := by
  unfold active
  split
  · exact h
  · split
    · exact h
    · exact foldl_preserve remove WF (fun _ a h2 => remove_WF h2 a) _ _
        ⟨h.1, h.2.1, h.2.2.1, h.2.2.2⟩

theorem visitSubscription_WF {w : World} (h : WF w) (sid : Nat) :
    WF (visitSubscription w sid) := by
  simp only [visitSubscription]
  apply refreshTimeout_WF
  split
  · exact h
  · exact active_WF h sid

theorem gestureIter_WF :
    ∀ (n : Nat) {w : World} (len k : Nat), WF w → WF (gestureIter n w len k) := by
  intro n
  induction n with
  | zero => exact fun len k h => h
  | succ m ih =>
    intro w len k h
    simp only [gestureIter]
    split
    · cases hg : w.subscriptions[k]? with
      | none => exact ih _ _ h
      | some sid => exact ih _ _ (visitSubscription_WF h sid)
    · exact h

theorem subscribe_WF {w : World} (h : WF w) (d : Nat) (a : Option (List Nat))
    (i : Bool) : WF (subscribe w d a i).1 := by
  obtain ⟨hA, hB, hC, hD⟩ := h
  apply refreshTimeout_WF
  refine ⟨?_, ?_, hC, ?_⟩
  · intro sid2 hmem
    simp only [List.length_append, List.length_singleton]
    rcases List.mem_append.mp hmem with hm | hm
    · exact Nat.lt_succ_of_lt (hA sid2 hm)
    · rcases List.mem_singleton.mp hm with rfl
      exact Nat.lt_succ_self _
  · rw [List.nodup_append]
    refine ⟨hB, List.nodup_singleton _, fun a2 ha2 hb2 => ?_⟩
    rcases List.mem_singleton.mp hb2 with rfl
    exact absurd (hA _ ha2) (Nat.lt_irrefl _)
  · intro t ht
    obtain ⟨h1, h2, h3⟩ := hD t ht
    refine ⟨h1, by simp only [List.length_append, List.length_singleton]; omega, ?_⟩
    show (((w.subs ++ [_])[t.subId]?).bind _) = some t
    rw [List.getElem?_append_left h2]
    exact h3

theorem fireTimer_WF {w : World} (h : WF w) (t : Timer) : WF (fireTimer w t) := by
  unfold fireTimer
  apply clearTimeout_WF
  have h1 : WF { w with timers := w.timers.filter (fun x => x.id != t.id),
                        now := max w.now t.deadline } := by
    obtain ⟨hA, hB, hC, hD⟩ := h
    refine ⟨hA, hB, hC.sublist ((List.filter_sublist _).map _), ?_⟩
    intro t2 ht2
    exact hD t2 (List.mem_filter.mp ht2).1
  unfold inactive
  split
  · exact h1
  · split
    · exact ⟨h1.1, h1.2.1, h1.2.2.1, h1.2.2.2⟩
    · exact h1

theorem advanceLoop_WF :
    ∀ (fuel : Nat) {w : World} (target : Nat), WF w →
      WF (advanceLoop fuel w target) := by
  intro fuel
  induction fuel with
  | zero => exact fun target h => h
  | succ m ih =>
    intro w target h
    simp only [advanceLoop]
    cases hp : pickDue w.timers target with
    | none => exact h
    | some t => exact ih _ (fireTimer_WF h t)

theorem advanceTo_WF {w : World} (h : WF w) (target : Nat) :
    WF (advanceTo w target) := by
  have h1 := advanceLoop_WF w.timers.length target h
  exact ⟨h1.1, h1.2.1, h1.2.2.1, h1.2.2.2⟩

theorem stopInactiveTimer_WF {w : World} (h : WF w) : WF (stopInactiveTimer w) :=
  foldl_preserve clearTimeout WF (fun _ a h2 => clearTimeout_WF h2 a) _ _ h

theorem refreshInactiveTimer_WF {w : World} (h : WF w) :
    WF (refreshInactiveTimer w) :=
  foldl_preserve refreshTimeout WF (fun _ a h2 => refreshTimeout_WF h2 a) _ _ h

theorem step_WF {w : World} (h : WF w) (op : Op) : WF (step w op) := by
  cases op with
  | subscribe d a i => exact subscribe_WF h d a i
  | remove sid => exact remove_WF h sid
  | gesture => exact gestureIter_WF _ _ _ h
  | stopAll => exact stopInactiveTimer_WF h
  | refreshAll => exact refreshInactiveTimer_WF h
  | advance t => exact advanceTo_WF h t

theorem run_WF {w : World} (h : WF w) (ops : List Op) : WF (run w ops) :=
  foldl_preserve step WF (fun _ op h2 => step_WF h2 op) ops w h

theorem initWorld_WF : WF initWorld := by
  refine ⟨?_, ?_, ?_, ?_⟩ <;> simp [initWorld]

/-! ### The gesture loop under non-re-entrant callbacks -/

/-- Processing a list of subscription ids in order with the `forEach` body. -/
def processList (w : World) (L : List Nat) : World :=
  L.foldl visitSubscription w

theorem evFor_append (l1 l2 : List Event) (sid : Nat) :
    evFor (l1 ++ l2) sid = evFor l1 sid ++ evFor l2 sid :=
  List.filter_append _ _

theorem evFor_single_ne {sid sid2 : Nat} (h : sid ≠ sid2) (b : Bool) (tm : Nat) :
    evFor [⟨sid, b, tm⟩] sid2 = [] := by
  simp [evFor, h]

theorem evFor_single_self (sid : Nat) (b : Bool) (tm : Nat) :
    evFor [⟨sid, b, tm⟩] sid = [⟨sid, b, tm⟩] := by
  simp [evFor]

theorem evFor_ite_ne {sid sid2 : Nat} (h : sid ≠ sid2) (c : Prop) [Decidable c]
    (b : Bool) (tm : Nat) :
    evFor (if c then [⟨sid, b, tm⟩] else []) sid2 = [] := by
  split
  · exact evFor_single_ne h b tm
  · rfl

theorem visit_eq_of_none {w : World} {sid : Nat} (hs : w.subs[sid]? = none) :
    visitSubscription w sid = w := by
  have hip : isPending w sid = false := by
    simp [isPending, timeoutOf, hs]
  have ha : active w sid = w := by
    unfold active
    rw [hs]
  simp only [visitSubscription, hip, Bool.false_eq_true, if_false, ha]
  exact refreshTimeout_eq_of_none w hs

theorem visit_PureWorld {w : World} (hp : PureWorld w) (sid : Nat) :
    PureWorld (visitSubscription w sid) := by
  cases hs : w.subs[sid]? with
  | none =>
    rw [visit_eq_of_none hs]
    exact hp
  | some s =>
    have hcb : PureCb s.onActive := hp s (List.getElem?_mem hs)
    obtain ⟨hself, _, _, _, _, _, hne, _⟩ := visit_pure_spec w hs hcb
    intro s2 hs2
    obtain ⟨i, hi⟩ := List.mem_iff_getElem?.mp hs2
    by_cases hie : sid = i
    · subst hie
      rw [hself] at hi
      injection hi with hi
      rw [← hi]
      exact hcb
    · rw [hne i hie] at hi
      exact hp s2 (List.getElem?_mem hi)

theorem visit_subscriptions_pure {w : World} (hp : PureWorld w) (sid : Nat) :
    (visitSubscription w sid).subscriptions = w.subscriptions := by
  cases hs : w.subs[sid]? with
  | none => rw [visit_eq_of_none hs]
  | some s =>
    exact (visit_pure_spec w hs (hp s (List.getElem?_mem hs))).2.2.2.2.1

/-- Under non-re-entrant callbacks the live array never changes during the
`forEach`, so the index loop visits exactly the members of the live array in
order. -/
theorem gestureIter_pure_eq :
    ∀ (n : Nat) (w : World) (k : Nat), PureWorld w →
      n + k = w.subscriptions.length →
      gestureIter n w w.subscriptions.length k =
        processList w (w.subscriptions.drop k) := by
  intro n
  induction n with
  | zero =>
    intro w k hp hlen
    have : w.subscriptions.length ≤ k := by omega
    simp [gestureIter, processList, List.drop_eq_nil_of_le this]
  | succ m ih =>
    intro w k hp hlen
    have hk : k < w.subscriptions.length := by omega
    have hg : w.subscriptions[k]? = some w.subscriptions[k] :=
      List.getElem?_eq_getElem hk
    simp only [gestureIter, if_pos hk, hg]
    have hdrop : w.subscriptions[k] :: w.subscriptions.drop (k + 1) =
        w.subscriptions.drop k := List.getElem_cons_drop _ k hk
    have hlive : (visitSubscription w w.subscriptions[k]).subscriptions =
        w.subscriptions := visit_subscriptions_pure hp _
    have hp2 : PureWorld (visitSubscription w w.subscriptions[k]) :=
      visit_PureWorld hp _
    have hlen2 : m + (k + 1) =
        (visitSubscription w w.subscriptions[k]).subscriptions.length := by
      rw [hlive]
      omega
    have := ih (visitSubscription w w.subscriptions[k]) (k + 1) hp2 hlen2
    rw [hlive] at this
    rw [this, ← hdrop]
    rfl

theorem onPanResponderCapture_pure_eq {w : World} (hp : PureWorld w) :
    (onPanResponderCapture w).1 = processList w w.subscriptions := by
  have := gestureIter_pure_eq w.subscriptions.length w 0 hp (by omega)
  simpa using this

/-- Frame conditions of a pure pass over a list of valid subscription ids:
the clock, the live array and the heap size are untouched, purity is
preserved, exactly one fresh timer handle is consumed per processed entry,
and subscriptions outside the list keep their records, their trace and have
no timers added. -/
theorem processList_frame :
    ∀ (L : List Nat) (w : World), PureWorld w →
      (∀ x ∈ L, x < w.subs.length) →
      (processList w L).now = w.now ∧
      (processList w L).subscriptions = w.subscriptions ∧
      (processList w L).subs.length = w.subs.length ∧
      PureWorld (processList w L) ∧
      (processList w L).nextHandle = w.nextHandle + L.length ∧
      (∀ sid2, sid2 ∉ L → (processList w L).subs[sid2]? = w.subs[sid2]?) ∧
      (∀ sid2, sid2 ∉ L →
        evFor (processList w L).events sid2 = evFor w.events sid2) ∧
      (∀ t ∈ (processList w L).timers, t ∈ w.timers ∨ t.subId ∈ L) := by
  intro L
  induction L with
  | nil =>
    intro w hp hv
    exact ⟨rfl, rfl, rfl, hp, rfl, fun _ _ => rfl, fun _ _ => rfl,
      fun t ht => Or.inl ht⟩
  | cons sid0 rest ih =>
    intro w hp hv
    have hv0 : sid0 < w.subs.length := hv sid0 (List.mem_cons_self _ _)
    have hs : w.subs[sid0]? = some w.subs[sid0] := List.getElem?_eq_getElem hv0
    have hcb : PureCb w.subs[sid0].onActive := hp _ (List.getElem_mem hv0)
    obtain ⟨hself, hev, hnh, hnow, hsubscr, hlen, hne, htm⟩ :=
      visit_pure_spec w hs hcb
    have hp2 : PureWorld (visitSubscription w sid0) := visit_PureWorld hp sid0
    have hv2 : ∀ x ∈ rest, x < (visitSubscription w sid0).subs.length := by
      intro x hx
      rw [hlen]
      exact hv x (List.mem_cons_of_mem _ hx)
    obtain ⟨inow, isubscr, ilen, ipure, inh, ine, iev, itm⟩ :=
      ih (visitSubscription w sid0) hp2 hv2
    have hstep : processList w (sid0 :: rest) =
        processList (visitSubscription w sid0) rest := rfl
    rw [hstep]
    refine ⟨by rw [inow, hnow], by rw [isubscr, hsubscr],
      by rw [ilen, hlen], ipure, by rw [inh, hnh]; simp; omega, ?_, ?_, ?_⟩
    · intro sid2 h2
      have h2r : sid2 ∉ rest := fun hx => h2 (List.mem_cons_of_mem _ hx)
      have h2h : sid0 ≠ sid2 := fun hx => h2 (hx ▸ List.mem_cons_self _ _)
      rw [ine sid2 h2r, hne sid2 h2h]
    · intro sid2 h2
      have h2r : sid2 ∉ rest := fun hx => h2 (List.mem_cons_of_mem _ hx)
      have h2h : sid0 ≠ sid2 := fun hx => h2 (hx ▸ List.mem_cons_self _ _)
      rw [iev sid2 h2r, hev, evFor_append, evFor_ite_ne h2h]
      simp
    · intro t ht
      rcases itm t ht with ht2 | ht2
      · rcases htm t ht2 with ht3 | ht3
        · exact Or.inl ht3
        · exact Or.inr (ht3 ▸ List.mem_cons_self _ _)
      · exact Or.inr (List.mem_cons_of_mem _ ht2)

/-- The per-subscription outcome of a pure pass: each listed subscription is
re-armed `duration` from now with a fresh handle, and its slice of the trace
grows by exactly one `onActive` invocation when it was not pending and has an
`onActive` callback, by nothing otherwise. -/
theorem processList_spec :
    ∀ (L : List Nat) (w : World), PureWorld w →
      (∀ x ∈ L, x < w.subs.length) → L.Nodup →
      ∀ sid ∈ L, ∀ s : InteractionSubscription, w.subs[sid]? = some s →
        (∃ h : Nat, (processList w L).subs[sid]? =
          some ⟨s.duration, s.onActive, s.onInactive,
            some ⟨h, sid, w.now + s.duration⟩⟩) ∧
        evFor (processList w L).events sid = evFor w.events sid ++
          (if s.timeout = none ∧ s.onActive.isSome
           then [⟨sid, true, w.now⟩] else []) := by
  intro L
  induction L with
  | nil =>
    intro w _ _ _ sid hsid
    exact absurd hsid (List.not_mem_nil sid)
  | cons sid0 rest ih =>
    intro w hp hv hnd sid hsid s hs
    have hv0 : sid0 < w.subs.length := hv sid0 (List.mem_cons_self _ _)
    have hs0 : w.subs[sid0]? = some w.subs[sid0] := List.getElem?_eq_getElem hv0
    have hcb0 : PureCb w.subs[sid0].onActive := hp _ (List.getElem_mem hv0)
    obtain ⟨hself, hev, hnh, hnow, hsubscr, hlen, hne, htm⟩ :=
      visit_pure_spec w hs0 hcb0
    have hp2 : PureWorld (visitSubscription w sid0) := visit_PureWorld hp sid0
    have hv2 : ∀ x ∈ rest, x < (visitSubscription w sid0).subs.length := by
      intro x hx
      rw [hlen]
      exact hv x (List.mem_cons_of_mem _ hx)
    obtain ⟨hnd0, hndr⟩ := List.nodup_cons.mp hnd
    have hstep : processList w (sid0 :: rest) =
        processList (visitSubscription w sid0) rest := rfl
    rw [hstep]
    rcases List.mem_cons.mp hsid with rfl | hsidr
    · -- the visited head; the rest of the pass leaves it alone
      have hseq : s = w.subs[sid] := by
        have h5 := hs0.symm.trans hs
        injection h5 with h5
        exact h5.symm
      obtain ⟨_, _, _, ipure, _, ine, iev, _⟩ :=
        processList_frame rest (visitSubscription w sid) hp2 hv2
      constructor
      · refine ⟨w.nextHandle, ?_⟩
        rw [ine sid hnd0, hself, hseq]
      · rw [iev sid hnd0, hev, hseq, evFor_append]
        split
        · rw [evFor_single_self]
        · simp [evFor]
    · -- a later entry; the head visit leaves its record and trace alone
      have hne0 : sid0 ≠ sid := fun he => hnd0 (he ▸ hsidr)
      have hs2 : (visitSubscription w sid0).subs[sid]? = some s := by
        rw [hne sid hne0]
        exact hs
      obtain ⟨⟨hh, ih1⟩, ih2⟩ :=
        ih (visitSubscription w sid0) hp2 hv2 hndr sid hsidr s hs2
      constructor
      · exact ⟨hh, by rw [ih1, hnow]⟩
      · rw [ih2, hev, evFor_append, evFor_ite_ne hne0, hnow]
        simp

/-! ### Further shared lemmas -/

theorem WF_timer_unique {w : World} (hwf : WF w) (sid : Nat) :
    (w.timers.filter (fun t => t.subId == sid)).length ≤ 1 := by
  obtain ⟨_, _, hC, hD⟩ := hwf
  have hsubl : List.Sublist (w.timers.filter (fun t => t.subId == sid)) w.timers :=
    List.filter_sublist _
  have hnd : ((w.timers.filter (fun t => t.subId == sid)).map Timer.id).Nodup :=
    hC.sublist (hsubl.map _)
  have hall : ∀ t ∈ w.timers.filter (fun t => t.subId == sid),
      timeoutOf w sid = some t := by
    intro t ht
    obtain ⟨htm, hid⟩ := List.mem_filter.mp ht
    have heq : t.subId = sid := by simpa using hid
    have := (hD t htm).2.2
    rwa [heq] at this
  cases hfl : w.timers.filter (fun t => t.subId == sid) with
  | nil => simp
  | cons a tl =>
    cases tl with
    | nil => simp
    | cons b tl2 =>
      exfalso
      have ha := hall a (by rw [hfl]; exact List.mem_cons_self _ _)
      have hb := hall b (by rw [hfl]; exact List.mem_cons_of_mem _ (List.mem_cons_self _ _))
      have hab : a = b := by
        have := ha.symm.trans hb
        injection this
      rw [hfl] at hnd
      simp only [List.map_cons, List.nodup_cons, List.mem_cons] at hnd
      exact hnd.1 (Or.inl (congrArg Timer.id hab))

theorem foldl_clearTimeout_keeps (L : List Nat) :
    ∀ w : World, (L.foldl clearTimeout w).events = w.events ∧
      (L.foldl clearTimeout w).subscriptions = w.subscriptions := by
  induction L with
  | nil => exact fun w => ⟨rfl, rfl⟩
  | cons a rest ih =>
    intro w
    obtain ⟨h1, h2⟩ := ih (clearTimeout w a)
    exact ⟨h1.trans (clearTimeout_events w a),
      h2.trans (clearTimeout_subscriptions w a)⟩

theorem foldl_refreshTimeout_keeps (L : List Nat) :
    ∀ w : World, (L.foldl refreshTimeout w).events = w.events ∧
      (L.foldl refreshTimeout w).subscriptions = w.subscriptions := by
  induction L with
  | nil => exact fun w => ⟨rfl, rfl⟩
  | cons a rest ih =>
    intro w
    obtain ⟨h1, h2⟩ := ih (refreshTimeout w a)
    exact ⟨h1.trans (refreshTimeout_events w a),
      h2.trans (refreshTimeout_subscriptions w a)⟩

/-! ### The scheduler: firing deferred callbacks -/

theorem minDeadline_mem : ∀ {l : List Timer} {t : Timer},
    minDeadline l = some t → t ∈ l := by
  intro l
  induction l with
  | nil =>
    intro t h
    exact absurd h (by simp [minDeadline])
  | cons a rest ih =>
    intro t h
    simp only [minDeadline] at h
    cases hm : minDeadline rest with
    | none =>
      simp only [hm] at h
      injection h with h
      subst h
      exact List.mem_cons_self _ _
    | some b =>
      simp only [hm] at h
      by_cases hd : a.deadline ≤ b.deadline
      · rw [if_pos hd] at h
        injection h with h
        subst h
        exact List.mem_cons_self _ _
      · rw [if_neg hd] at h
        injection h with h
        subst h
        exact List.mem_cons_of_mem _ (ih hm)

theorem minDeadline_isSome (a : Timer) (rest : List Timer) :
    (minDeadline (a :: rest)).isSome = true := by
  simp only [minDeadline]
  cases hm : minDeadline rest with
  | none => rfl
  | some b => by_cases hd : a.deadline ≤ b.deadline <;> simp [hd]

theorem pickDue_mem {timers : List Timer} {target : Nat} {t : Timer}
    (h : pickDue timers target = some t) : t ∈ timers ∧ t.deadline ≤ target := by
  have hm := minDeadline_mem h
  obtain ⟨h1, h2⟩ := List.mem_filter.mp hm
  exact ⟨h1, by simpa using h2⟩

theorem pickDue_none {timers : List Timer} {target : Nat}
    (h : pickDue timers target = none) : ∀ t ∈ timers, ¬t.deadline ≤ target := by
  intro t ht hle
  unfold pickDue at h
  cases hf : timers.filter (fun t => decide (t.deadline ≤ target)) with
  | nil =>
    have hmem : t ∈ timers.filter (fun t => decide (t.deadline ≤ target)) :=
      List.mem_filter.mpr ⟨ht, by simpa using hle⟩
    rw [hf] at hmem
    exact absurd hmem (List.not_mem_nil t)
  | cons a rest =>
    rw [hf] at h
    have := minDeadline_isSome a rest
    rw [h] at this
    simp at this

theorem inactive_subs (w : World) (sid time : Nat) :
    (inactive w sid time).subs = w.subs := by
  unfold inactive
  split
  · rfl
  · split <;> rfl

theorem inactive_timers (w : World) (sid time : Nat) :
    (inactive w sid time).timers = w.timers := by
  unfold inactive
  split
  · rfl
  · split <;> rfl

theorem clearTimeout_timers_of_some {w : World} {sid : Nat}
    {s : InteractionSubscription} (hs : w.subs[sid]? = some s) {t : Timer}
    (hst : s.timeout = some t) :
    (clearTimeout w sid).timers = w.timers.filter (fun x => x.id != t.id) := by
  unfold clearTimeout
  simp only [hs, hst]

/-- A timer that was actually in the queue fires by removing exactly the
entries carrying its handle: the deferred callback body calls `clearTimeout`
with the same stored handle, so the queue ends as a single filter of the
original. -/
theorem fireTimer_timers_of_mem {w : World} (hwf : WF w) {t2 : Timer}
    (ht2 : t2 ∈ w.timers) :
    (fireTimer w t2).timers = w.timers.filter (fun x => x.id != t2.id) := by
  have hD := hwf.2.2.2
  have hlink := (hD t2 ht2).2.2
  obtain ⟨s2, hs2, hs2t⟩ : ∃ s2, w.subs[t2.subId]? = some s2 ∧
      s2.timeout = some t2 := by
    unfold timeoutOf at hlink
    cases hg : w.subs[t2.subId]? with
    | none =>
      rw [hg] at hlink
      exact absurd hlink (by simp)
    | some s2 =>
      rw [hg] at hlink
      exact ⟨s2, rfl, hlink⟩
  have hfe : fireTimer w t2 = clearTimeout (inactive
      { w with timers := w.timers.filter (fun x => x.id != t2.id),
               now := max w.now t2.deadline } t2.subId t2.deadline)
      t2.subId := rfl
  have hsubs : (inactive
      { w with timers := w.timers.filter (fun x => x.id != t2.id),
               now := max w.now t2.deadline } t2.subId t2.deadline).subs[t2.subId]?
      = some s2 := by
    rw [inactive_subs]
    exact hs2
  rw [hfe, clearTimeout_timers_of_some hsubs hs2t, inactive_timers]
  show List.filter _ (List.filter _ w.timers) = _
  rw [List.filter_filter]
  apply List.filter_congr
  intro x _
  cases hx : x.id == t2.id <;> simp [hx]

theorem fireTimer_frame_ne {w : World} {t2 : Timer} {sid : Nat}
    (hne : t2.subId ≠ sid) :
    (fireTimer w t2).subs[sid]? = w.subs[sid]? ∧
    evFor (fireTimer w t2).events sid = evFor w.events sid := by
  unfold fireTimer
  constructor
  · rw [clearTimeout_getElem_ne _ hne]
    unfold inactive
    split
    · rfl
    · split <;> rfl
  · rw [clearTimeout_events]
    unfold inactive
    split
    · rfl
    · split
      · show evFor (w.events ++ [⟨t2.subId, false, t2.deadline⟩]) sid = _
        rw [evFor_append, evFor_single_ne hne]
        simp
      · rfl

theorem fireTimer_timers_sub (w : World) (t2 : Timer) :
    ∀ t ∈ (fireTimer w t2).timers, t ∈ w.timers := by
  intro t ht
  unfold fireTimer at ht
  have h1 := (clearTimeout_timers_sublist _ t2.subId).subset ht
  rw [inactive_timers] at h1
  exact (List.filter_sublist _).subset h1

theorem fireTimer_self {w : World} {sid : Nat} {s : InteractionSubscription}
    {t : Timer} (hwf : WF w) (hs : w.subs[sid]? = some s)
    (hst : s.timeout = some t) (ht : t ∈ w.timers) (htsub : t.subId = sid) :
    evFor (fireTimer w t).events sid = evFor w.events sid ++
      (if s.onInactive then [⟨sid, false, t.deadline⟩] else []) ∧
    timeoutOf (fireTimer w t) sid = none ∧
    (∀ t3 ∈ (fireTimer w t).timers, t3.subId ≠ sid) := by
  have hD := hwf.2.2.2
  refine ⟨?_, ?_, ?_⟩
  · unfold fireTimer
    rw [clearTimeout_events]
    rw [htsub]
    rw [inactive_eq_of_some _ (show (⟨w.subs, w.subscriptions,
        w.timers.filter (fun x => x.id != t.id), w.nextHandle,
        max w.now t.deadline, w.events⟩ : World).subs[sid]? = some s from hs)]
    show evFor (w.events ++ _) sid = _
    rw [evFor_append]
    congr 1
    split
    · exact evFor_single_self _ _ _
    · rfl
  · unfold fireTimer
    rw [htsub]
    exact clearTimeout_timeoutOf_self _ sid
  · intro t3 ht3
    rw [fireTimer_timers_of_mem hwf ht] at ht3
    obtain ⟨ht3m, ht3id⟩ := List.mem_filter.mp ht3
    intro he
    have hlink := (hD t3 ht3m).2.2
    rw [he, timeoutOf_eq_of_some hs, hst] at hlink
    have : t = t3 := by injection hlink
    rw [← this] at ht3id
    simp at ht3id

theorem advanceLoop_before_deadline :
    ∀ (fuel : Nat) (w : World) (target sid : Nat) (s : InteractionSubscription)
      (t : Timer), WF w → w.subs[sid]? = some s → s.timeout = some t →
      t ∈ w.timers → t.subId = sid → target < t.deadline →
      (advanceLoop fuel w target).subs[sid]? = some s ∧
      t ∈ (advanceLoop fuel w target).timers ∧
      evFor (advanceLoop fuel w target).events sid = evFor w.events sid := by
  intro fuel
  induction fuel with
  | zero =>
    intro w target sid s t _ hs _ ht _ _
    exact ⟨hs, ht, rfl⟩
  | succ m ih =>
    intro w target sid s t hwf hs hst ht htsub hlt
    simp only [advanceLoop]
    cases hp : pickDue w.timers target with
    | none => exact ⟨hs, ht, rfl⟩
    | some t2 =>
      obtain ⟨ht2, ht2le⟩ := pickDue_mem hp
      have hne : t2.subId ≠ sid := by
        intro he
        have hlink := (hwf.2.2.2 t2 ht2).2.2
        rw [he, timeoutOf_eq_of_some hs, hst] at hlink
        have heq : t = t2 := by injection hlink
        rw [← heq] at ht2le
        omega
      obtain ⟨hrec, hev⟩ := fireTimer_frame_ne hne
      have hidne : t.id ≠ t2.id := by
        intro hid
        have := List.inj_on_of_nodup_map hwf.2.2.1 ht ht2 hid
        rw [this] at htsub
        exact hne htsub
      have htmem2 : t ∈ (fireTimer w t2).timers := by
        rw [fireTimer_timers_of_mem hwf ht2]
        exact List.mem_filter.mpr ⟨ht, by simpa using hidne⟩
      obtain ⟨a1, a2, a3⟩ := ih (fireTimer w t2) target sid s t
        (fireTimer_WF hwf t2) (hrec.trans hs) hst htmem2 htsub hlt
      exact ⟨a1, a2, a3.trans hev⟩

theorem advanceLoop_no_sid :
    ∀ (fuel : Nat) (w : World) (target sid : Nat),
      (∀ t ∈ w.timers, t.subId ≠ sid) →
      (advanceLoop fuel w target).subs[sid]? = w.subs[sid]? ∧
      evFor (advanceLoop fuel w target).events sid = evFor w.events sid ∧
      (∀ t ∈ (advanceLoop fuel w target).timers, t.subId ≠ sid) := by
  intro fuel
  induction fuel with
  | zero =>
    intro w target sid h
    exact ⟨rfl, rfl, h⟩
  | succ m ih =>
    intro w target sid h
    simp only [advanceLoop]
    cases hp : pickDue w.timers target with
    | none => exact ⟨rfl, rfl, h⟩
    | some t2 =>
      have ht2 := (pickDue_mem hp).1
      have hne : t2.subId ≠ sid := h t2 ht2
      obtain ⟨hrec, hev⟩ := fireTimer_frame_ne hne
      have h2 : ∀ t ∈ (fireTimer w t2).timers, t.subId ≠ sid := fun t htm =>
        h t (fireTimer_timers_sub w t2 t htm)
      obtain ⟨a1, a2, a3⟩ := ih (fireTimer w t2) target sid h2
      exact ⟨a1.trans hrec, a2.trans hev, a3⟩

theorem advanceLoop_fires :
    ∀ (fuel : Nat) (w : World) (target sid : Nat) (s : InteractionSubscription)
      (t : Timer), WF w → w.subs[sid]? = some s → s.timeout = some t →
      t ∈ w.timers → t.subId = sid → t.deadline ≤ target →
      w.timers.length ≤ fuel →
      evFor (advanceLoop fuel w target).events sid = evFor w.events sid ++
        (if s.onInactive then [⟨sid, false, t.deadline⟩] else []) ∧
      timeoutOf (advanceLoop fuel w target) sid = none ∧
      (∀ t3 ∈ (advanceLoop fuel w target).timers, t3.subId ≠ sid) := by
  intro fuel
  induction fuel with
  | zero =>
    intro w target sid s t _ _ _ ht _ _ hfuel
    exfalso
    have : 0 < w.timers.length := List.length_pos.mpr (List.ne_nil_of_mem ht)
    omega
  | succ m ih =>
    intro w target sid s t hwf hs hst ht htsub hdl hfuel
    simp only [advanceLoop]
    cases hp : pickDue w.timers target with
    | none => exact absurd hdl (pickDue_none hp t ht)
    | some t2 =>
      obtain ⟨ht2, ht2le⟩ := pickDue_mem hp
      by_cases he : t2.subId = sid
      · have hlink := (hwf.2.2.2 t2 ht2).2.2
        rw [he, timeoutOf_eq_of_some hs, hst] at hlink
        have heq : t = t2 := by injection hlink
        subst heq
        obtain ⟨f1, f2, f3⟩ := fireTimer_self hwf hs hst ht htsub
        obtain ⟨a1, a2, a3⟩ := advanceLoop_no_sid m (fireTimer w t) target sid f3
        refine ⟨a2.trans f1, ?_, a3⟩
        show ((advanceLoop m (fireTimer w t) target).subs[sid]?).bind _ = none
        rw [a1]
        exact f2
      · obtain ⟨hrec, hev⟩ := fireTimer_frame_ne he
        have hidne : t.id ≠ t2.id := by
          intro hid
          have := List.inj_on_of_nodup_map hwf.2.2.1 ht ht2 hid
          rw [this] at htsub
          exact he htsub
        have htmem2 : t ∈ (fireTimer w t2).timers := by
          rw [fireTimer_timers_of_mem hwf ht2]
          exact List.mem_filter.mpr ⟨ht, by simpa using hidne⟩
        have hlen2 : (fireTimer w t2).timers.length ≤ m := by
          rw [fireTimer_timers_of_mem hwf ht2]
          have : (w.timers.filter (fun x => x.id != t2.id)).length <
              w.timers.length :=
            List.length_filter_lt_length_iff_exists.mpr ⟨t2, ht2, by simp⟩
          omega
        obtain ⟨a1, a2, a3⟩ := ih (fireTimer w t2) target sid s t
          (fireTimer_WF hwf t2) (hrec.trans hs) hst htmem2 htsub hdl hlen2
        rw [hev] at a1
        exact ⟨a1, a2, a3⟩

/-! ### Life after unsubscription -/

theorem clearTimeout_PureWorld {w : World} (hp : PureWorld w) (sid : Nat) :
    PureWorld (clearTimeout w sid) := by
  cases hs : w.subs[sid]? with
  | none =>
    have he : clearTimeout w sid = w := by
      unfold clearTimeout
      rw [hs]
    rw [he]
    exact hp
  | some s =>
    cases ht : s.timeout with
    | none =>
      have he : clearTimeout w sid = w := by
        unfold clearTimeout
        simp only [hs, ht]
      rw [he]
      exact hp
    | some t0 =>
      have he : clearTimeout w sid =
          { w with timers := w.timers.filter (fun x => x.id != t0.id),
                   subs := w.subs.set sid { s with timeout := none } } := by
        unfold clearTimeout
        simp only [hs, ht]
      rw [he]
      intro s2 hs2
      rcases List.mem_or_eq_of_mem_set hs2 with h | h
      · exact hp s2 h
      · subst h
        exact hp s (List.getElem?_mem hs)

theorem refreshTimeout_PureWorld {w : World} (hp : PureWorld w) (sid : Nat) :
    PureWorld (refreshTimeout w sid) := by
  cases hs : w.subs[sid]? with
  | none =>
    rw [refreshTimeout_eq_of_none w hs]
    exact hp
  | some s =>
    rw [refreshTimeout_eq_of_some w hs]
    intro s2 hs2
    rcases List.mem_or_eq_of_mem_set hs2 with h | h
    · exact clearTimeout_PureWorld hp sid s2 h
    · subst h
      exact hp s (List.getElem?_mem hs)

theorem remove_PureWorld {w : World} (hp : PureWorld w) (sid : Nat) :
    PureWorld (remove w sid) :=
  clearTimeout_PureWorld hp sid

theorem inactive_PureWorld {w : World} (hp : PureWorld w) (sid time : Nat) :
    PureWorld (inactive w sid time) := by
  unfold inactive
  split
  · exact hp
  · split
    · exact hp
    · exact hp

theorem fireTimer_PureWorld {w : World} (hp : PureWorld w) (t : Timer) :
    PureWorld (fireTimer w t) := by
  show PureWorld (clearTimeout (inactive
    { w with timers := w.timers.filter (fun x => x.id != t.id),
             now := max w.now t.deadline } t.subId t.deadline) t.subId)
  apply clearTimeout_PureWorld
  apply inactive_PureWorld
  exact fun s hs => hp s hs

theorem active_PureWorld {w : World} (hp : PureWorld w) (sid : Nat) :
    PureWorld (active w sid) := by
  unfold active
  split
  · exact hp
  · split
    · exact hp
    · exact foldl_preserve remove PureWorld (fun _ a h2 => remove_PureWorld h2 a)
        _ _ hp

theorem visitSubscription_PureWorld2 {w : World} (hp : PureWorld w) (sid : Nat) :
    PureWorld (visitSubscription w sid) := by
  simp only [visitSubscription]
  apply refreshTimeout_PureWorld
  split
  · exact hp
  · exact active_PureWorld hp sid

theorem subscribe_PureWorld {w : World} (hp : PureWorld w) (d : Nat)
    {a : Option (List Nat)} (ha : PureCb a) (i : Bool) :
    PureWorld (subscribe w d a i).1 := by
  apply refreshTimeout_PureWorld
  intro s2 hs2
  rcases List.mem_append.mp hs2 with h | h
  · exact hp s2 h
  · rcases List.mem_singleton.mp h with rfl
    exact ha

/-- After unsubscription of `sid` (with non-re-entrant callbacks), the
subscription is out of the live array, owns no scheduled timer, and still
occupies its heap slot. -/
def Gone (w : World) (sid : Nat) : Prop :=
  sid ∉ w.subscriptions ∧ (∀ t ∈ w.timers, t.subId ≠ sid) ∧
  sid < w.subs.length ∧ WF w ∧ PureWorld w

theorem clearTimeout_gone {w : World} {sid : Nat} (hg : Gone w sid)
    (sid2 : Nat) : Gone (clearTimeout w sid2) sid := by
  obtain ⟨h1, h2, h3, h4, h5⟩ := hg
  refine ⟨?_, ?_, ?_, clearTimeout_WF h4 sid2, clearTimeout_PureWorld h5 sid2⟩
  · rw [clearTimeout_subscriptions]
    exact h1
  · intro t ht
    exact h2 t ((clearTimeout_timers_sublist w sid2).subset ht)
  · rw [clearTimeout_subs_length]
    exact h3

theorem refreshTimeout_gone {w : World} {sid : Nat} (hg : Gone w sid)
    {sid2 : Nat} (hne : sid2 ≠ sid) : Gone (refreshTimeout w sid2) sid := by
  obtain ⟨h1, h2, h3, h4, h5⟩ := hg
  refine ⟨?_, ?_, ?_, refreshTimeout_WF h4 sid2, refreshTimeout_PureWorld h5 sid2⟩
  · rw [refreshTimeout_subscriptions]
    exact h1
  · intro t ht
    rcases refreshTimeout_timers_mem w sid2 t ht with h | h
    · exact h2 t h
    · rw [h]
      exact hne
  · rw [refreshTimeout_subs_length]
    exact h3

theorem remove_gone {w : World} {sid : Nat} (hg : Gone w sid) (sid2 : Nat) :
    Gone (remove w sid2) sid := by
  obtain ⟨h1, h2, h3, h4, h5⟩ := clearTimeout_gone hg sid2
  refine ⟨?_, h2, h3, remove_WF hg.2.2.2.1 sid2, remove_PureWorld hg.2.2.2.2 sid2⟩
  rw [remove_subscriptions]
  intro hmem
  apply hg.1
  exact mem_of_mem_removeFromList hmem

theorem fireTimer_gone {w : World} {sid : Nat} (hg : Gone w sid) {t2 : Timer}
    (ht2 : t2 ∈ w.timers) :
    Gone (fireTimer w t2) sid ∧
    evFor (fireTimer w t2).events sid = evFor w.events sid := by
  obtain ⟨h1, h2, h3, h4, h5⟩ := hg
  have hne : t2.subId ≠ sid := h2 t2 ht2
  refine ⟨⟨?_, ?_, ?_, fireTimer_WF h4 t2, fireTimer_PureWorld h5 t2⟩,
    (fireTimer_frame_ne hne).2⟩
  · show sid ∉ (clearTimeout (inactive _ t2.subId t2.deadline) t2.subId).subscriptions
    rw [clearTimeout_subscriptions]
    unfold inactive
    split
    · exact h1
    · split
      · exact h1
      · exact h1
  · intro t ht
    exact h2 t (fireTimer_timers_sub w t2 t ht)
  · show sid < (clearTimeout (inactive _ t2.subId t2.deadline) t2.subId).subs.length
    rw [clearTimeout_subs_length, inactive_subs]
    exact h3

theorem advanceLoop_gone :
    ∀ (fuel : Nat) (w : World) (target sid : Nat), Gone w sid →
      Gone (advanceLoop fuel w target) sid ∧
      evFor (advanceLoop fuel w target).events sid = evFor w.events sid := by
  intro fuel
  induction fuel with
  | zero =>
    intro w target sid hg
    exact ⟨hg, rfl⟩
  | succ m ih =>
    intro w target sid hg
    simp only [advanceLoop]
    cases hp : pickDue w.timers target with
    | none => exact ⟨hg, rfl⟩
    | some t2 =>
      obtain ⟨hg2, hev2⟩ := fireTimer_gone hg (pickDue_mem hp).1
      obtain ⟨hg3, hev3⟩ := ih (fireTimer w t2) target sid hg2
      exact ⟨hg3, hev3.trans hev2⟩

theorem foldl_clear_gone (sid : Nat) :
    ∀ (L : List Nat) (w : World), Gone w sid →
      Gone (L.foldl clearTimeout w) sid := by
  intro L
  induction L with
  | nil => exact fun w h => h
  | cons a rest ih => exact fun w h => ih _ (clearTimeout_gone h a)

theorem foldl_refresh_gone (sid : Nat) :
    ∀ (L : List Nat) (w : World), (∀ x ∈ L, x ≠ sid) → Gone w sid →
      Gone (L.foldl refreshTimeout w) sid := by
  intro L
  induction L with
  | nil => exact fun w _ h => h
  | cons a rest ih =>
    intro w hL h
    exact ih _ (fun x hx => hL x (List.mem_cons_of_mem _ hx))
      (refreshTimeout_gone h (hL a (List.mem_cons_self _ _)))

theorem step_gone {w : World} {sid : Nat} (hg : Gone w sid) {op : Op}
    (hop : opPure op) :
    Gone (step w op) sid ∧ evFor (step w op).events sid = evFor w.events sid := by
  obtain ⟨h1, h2, h3, h4, h5⟩ := hg
  cases op with
  | subscribe d a i =>
    have hfresh : w.subs.length ≠ sid := fun he => by omega
    have hsub1 : step w (Op.subscribe d a i) = refreshTimeout
        { w with subs := w.subs ++ [⟨d, a, i, none⟩],
                 subscriptions := w.subscriptions ++ [w.subs.length] }
        w.subs.length := rfl
    rw [hsub1]
    constructor
    · refine ⟨?_, ?_, ?_, ?_, ?_⟩
      · rw [refreshTimeout_subscriptions]
        intro hmem
        rcases List.mem_append.mp hmem with hm | hm
        · exact h1 hm
        · rcases List.mem_singleton.mp hm with rfl
          exact hfresh rfl
      · intro t ht
        rcases refreshTimeout_timers_mem _ w.subs.length t ht with hm | hm
        · exact h2 t hm
        · rw [hm]
          exact hfresh
      · rw [refreshTimeout_subs_length]
        simp only [List.length_append, List.length_singleton]
        omega
      · exact subscribe_WF h4 d a i
      · exact subscribe_PureWorld h5 d hop i
    · rw [refreshTimeout_events]
  | remove r =>
    refine ⟨remove_gone ⟨h1, h2, h3, h4, h5⟩ r, ?_⟩
    show evFor (remove w r).events sid = _
    rw [remove_events]
  | gesture =>
    have hv : ∀ x ∈ w.subscriptions, x < w.subs.length := h4.1
    obtain ⟨fnow, fsubscr, flen, fpure, fnh, fne, fev, ftm⟩ :=
      processList_frame w.subscriptions w h5 hv
    have hgp : (step w Op.gesture) = processList w w.subscriptions :=
      onPanResponderCapture_pure_eq h5
    rw [hgp]
    refine ⟨⟨?_, ?_, ?_, ?_, fpure⟩, fev sid h1⟩
    · rw [fsubscr]
      exact h1
    · intro t ht
      rcases ftm t ht with hm | hm
      · exact h2 t hm
      · intro he
        rw [he] at hm
        exact h1 hm
    · rw [flen]
      exact h3
    · rw [← hgp]
      exact gestureIter_WF _ _ _ ⟨hv, h4.2.1, h4.2.2.1, h4.2.2.2⟩
  | stopAll =>
    refine ⟨foldl_clear_gone sid w.subscriptions w ⟨h1, h2, h3, h4, h5⟩, ?_⟩
    show evFor (w.subscriptions.foldl clearTimeout w).events sid = _
    rw [(foldl_clearTimeout_keeps w.subscriptions w).1]
  | refreshAll =>
    constructor
    · refine foldl_refresh_gone sid w.subscriptions w ?_ ⟨h1, h2, h3, h4, h5⟩
      intro x hx he
      rw [he] at hx
      exact h1 hx
    · show evFor (w.subscriptions.foldl refreshTimeout w).events sid = _
      rw [(foldl_refreshTimeout_keeps w.subscriptions w).1]
  | advance t =>
    obtain ⟨⟨g1, g2, g3, g4, g5⟩, gev⟩ :=
      advanceLoop_gone w.timers.length w t sid ⟨h1, h2, h3, h4, h5⟩
    exact ⟨⟨g1, g2, g3, ⟨g4.1, g4.2.1, g4.2.2.1, g4.2.2.2⟩, g5⟩, gev⟩

theorem run_gone :
    ∀ (ops : List Op) (w : World) (sid : Nat), Gone w sid →
      (∀ op ∈ ops, opPure op) →
      Gone (run w ops) sid ∧
      evFor (run w ops).events sid = evFor w.events sid := by
  intro ops
  induction ops with
  | nil => exact fun w sid hg _ => ⟨hg, rfl⟩
  | cons op rest ih =>
    intro w sid hg hops
    obtain ⟨hg2, hev2⟩ := step_gone hg (hops op (List.mem_cons_self _ _))
    obtain ⟨hg3, hev3⟩ := ih (step w op) sid hg2
      (fun o ho => hops o (List.mem_cons_of_mem _ ho))
    exact ⟨hg3, hev3.trans hev2⟩

instance (op : Op) : Decidable (opPure op) := by
  cases op <;> simp only [opPure] <;> infer_instance

/-! ### Claims settled against the model -/

/-- C1 (amended): for every gesture-capture notification in which no
subscriber callback re-enters the registry (no mid-iteration unsubscription),
and every live Subscription with record `s`: if it is not pending and has an
`onActive` callback, `active()` is invoked exactly once — its slice of the
trace grows by exactly that one invocation; if it is pending no `active()`
call occurs; in both cases its timer is then refreshed, so it ends the
notification pending with a timer armed `duration` from now.  That the
decision uses the pre-refresh pending state while the subscription ends
pending shows the activity check strictly precedes the refresh.  The handler
returns the fixed boolean `false`.  (The unamended claim fails when a
callback unsubscribes mid-iteration; see the counterexample.) -/
theorem gestureTransitionLogic (w : World) (hwf : WF w) (hp : PureWorld w)
    (sid : Nat) (hmem : sid ∈ w.subscriptions) (s : InteractionSubscription)
    (hs : w.subs[sid]? = some s) :
    (onPanResponderCapture w).2 = false ∧
    evFor (onPanResponderCapture w).1.events sid = evFor w.events sid ++
      (if s.timeout = none ∧ s.onActive.isSome
       then [⟨sid, true, w.now⟩] else []) ∧
    (∃ h : Nat, timeoutOf (onPanResponderCapture w).1 sid =
      some ⟨h, sid, w.now + s.duration⟩) ∧
    isPending (onPanResponderCapture w).1 sid = true := by
  obtain ⟨hA, hB, _, _⟩ := hwf
  rw [onPanResponderCapture_pure_eq hp]
  obtain ⟨⟨h, hgs⟩, hge⟩ :=
    processList_spec w.subscriptions w hp hA hB sid hmem s hs
  refine ⟨rfl, hge, ⟨h, ?_⟩, ?_⟩
  · rw [timeoutOf, hgs]
    rfl
  · rw [isPending, timeoutOf, hgs]
    rfl

/-- C1 witness: a single pure subscription of duration 5, freshly armed, run
through a gesture notification. -/
theorem gestureTransitionLogicWitness :
    (onPanResponderCapture (run initWorld [Op.subscribe 5 (some []) true])).2
      = false ∧
    evFor (onPanResponderCapture
        (run initWorld [Op.subscribe 5 (some []) true])).1.events 0 =
      evFor (run initWorld [Op.subscribe 5 (some []) true]).events 0 ++ [] ∧
    (∃ h : Nat, timeoutOf (onPanResponderCapture
        (run initWorld [Op.subscribe 5 (some []) true])).1 0 =
      some ⟨h, 0, (run initWorld [Op.subscribe 5 (some []) true]).now + 5⟩) ∧
    isPending (onPanResponderCapture
        (run initWorld [Op.subscribe 5 (some []) true])).1 0 = true :=
  gestureTransitionLogic (run initWorld [Op.subscribe 5 (some []) true])
    (by decide) (by decide) 0 (by decide) ⟨5, some [], true, some ⟨0, 0, 5⟩⟩
    (by decide)

/-- C1 counterexample: two subscriptions, durations 7 and 9.  At time 7 the
first becomes inactive; the gesture then fires its `onActive`, whose callback
unsubscribes it.  `forEach` consequently skips subscription 1, which is live
and pending at the notification — the claim demands its timer be refreshed,
yet it still holds its pre-gesture timer (handle 1, deadline 9; a refresh
during the gesture would have produced a fresh handle ≥ 2 and deadline 16,
since the pre-gesture handle counter is already 2). -/
theorem gestureClaimFailsOnReentrantCallback :
    isPending (run initWorld
      [Op.subscribe 7 (some [0]) true, Op.subscribe 9 (some []) true,
       Op.advance 7]) 1 = true ∧
    (run initWorld
      [Op.subscribe 7 (some [0]) true, Op.subscribe 9 (some []) true,
       Op.advance 7]).nextHandle = 2 ∧
    1 ∈ (run initWorld
      [Op.subscribe 7 (some [0]) true, Op.subscribe 9 (some []) true,
       Op.advance 7, Op.gesture]).subscriptions ∧
    timeoutOf (run initWorld
      [Op.subscribe 7 (some [0]) true, Op.subscribe 9 (some []) true,
       Op.advance 7, Op.gesture]) 1 = some ⟨1, 1, 9⟩ := by
  decide

/-- C2: starting from a fresh provider, after any sequence of public
operations (subscribe, unsubscribe, gesture notifications, bulk stops and
refreshes, clock advances — arbitrary, possibly re-entrant, callbacks
included) at most one scheduled timer handle exists per subscription:
`refreshTimeout` always cancels the previous handle before arming the new
one, so handles never accumulate. -/
theorem atMostOneTimerPerSubscription (ops : List Op) (sid : Nat) :
    ((run initWorld ops).timers.filter (fun t => t.subId == sid)).length ≤ 1 :=
  WF_timer_unique (run_WF initWorld_WF ops) sid

/-- C5 (code bug): the `InteractionContainer` constructor in src/index.js
builds the default subscription from the `timeout` prop but never arms its
timer — no constructor or mount path calls `refreshTimeout` on it.  With
`timeout = 1000` and no gestures, `isPending()` is false from the start and
`onInactive` never fires, even after 5000 time units — contradicting the
spec's "its timer is armed immediately at creation" and the scenario
"duration=1000ms, no gesture events → after 1000ms `onInactive` is called
once".  The provider-level `subscribe` path (src/interactionProvider.js),
by contrast, arms the timer immediately, as the last conjunct shows. -/
theorem containerDefaultSubscriptionUnarmed :
    isPending (containerConstructor 1000) 0 = false ∧
    (advanceTo (containerConstructor 1000) 5000).events = [] ∧
    isPending (advanceTo (containerConstructor 1000) 5000) 0 = false ∧
    isPending (subscribe initWorld 1000 (some []) true).1 0 = true := by
  decide

/-- C6 (amended): when no subscriber callback mutates the live set
mid-iteration (modelled as every registered callback being non-re-entrant),
a gesture-capture notification processes every entry that was live at its
start exactly once: the live set is unchanged, exactly one fresh timer handle
is consumed per live entry (so each is refreshed exactly once, none skipped,
none double-processed), and every live entry ends the notification pending.
(As stated the claim is false: the code iterates the live array with a plain
`forEach`, and a mid-iteration removal makes it skip a still-live entry; see
the counterexample.) -/
theorem gestureProcessesEachLiveEntryOnce (w : World) (hwf : WF w)
    (hp : PureWorld w) :
    (onPanResponderCapture w).1.subscriptions = w.subscriptions ∧
    (onPanResponderCapture w).1.nextHandle =
      w.nextHandle + w.subscriptions.length ∧
    ∀ sid ∈ w.subscriptions, isPending (onPanResponderCapture w).1 sid = true := by
  obtain ⟨hA, hB, _, _⟩ := hwf
  rw [onPanResponderCapture_pure_eq hp]
  obtain ⟨_, hsubscr, _, _, hnh, _, _, _⟩ :=
    processList_frame w.subscriptions w hp hA
  refine ⟨hsubscr, hnh, ?_⟩
  intro sid hmem
  have hlt : sid < w.subs.length := hA sid hmem
  have hs : w.subs[sid]? = some w.subs[sid] := List.getElem?_eq_getElem hlt
  obtain ⟨⟨h, hgs⟩, _⟩ :=
    processList_spec w.subscriptions w hp hA hB sid hmem _ hs
  rw [isPending, timeoutOf, hgs]
  rfl

/-- C6 witness: two pure subscriptions, one gesture: both processed, two
fresh handles consumed. -/
theorem gestureProcessesEachLiveEntryOnceWitness :
    (onPanResponderCapture (run initWorld
      [Op.subscribe 5 (some []) true, Op.subscribe 3 none true])).1.subscriptions
      = (run initWorld
      [Op.subscribe 5 (some []) true, Op.subscribe 3 none true]).subscriptions ∧
    (onPanResponderCapture (run initWorld
      [Op.subscribe 5 (some []) true, Op.subscribe 3 none true])).1.nextHandle =
      (run initWorld
        [Op.subscribe 5 (some []) true, Op.subscribe 3 none true]).nextHandle +
      (run initWorld
        [Op.subscribe 5 (some []) true,
         Op.subscribe 3 none true]).subscriptions.length ∧
    ∀ sid ∈ (run initWorld
      [Op.subscribe 5 (some []) true, Op.subscribe 3 none true]).subscriptions,
      isPending (onPanResponderCapture (run initWorld
        [Op.subscribe 5 (some []) true, Op.subscribe 3 none true])).1 sid
        = true :=
  gestureProcessesEachLiveEntryOnce
    (run initWorld [Op.subscribe 5 (some []) true, Op.subscribe 3 none true])
    (by decide) (by decide)

/-- C6 counterexample: subscriptions 0 (duration 10) and 1 (duration 20).
At time 10 subscription 0 goes inactive; the gesture notification then runs
its `onActive`, which unsubscribes subscription 0.  The `forEach` splice
shifts the array mid-iteration and index 1 is past the new end, so
subscription 1 — live at the start and at the end of the notification — is
never processed: it still holds its pre-gesture timer (handle 1, deadline
20), and only one fresh handle (nextHandle 2 → 3) was consumed during a
notification that started with two live entries. -/
theorem midIterationRemovalSkipsLiveEntry :
    1 ∈ (run initWorld
      [Op.subscribe 10 (some [0]) true, Op.subscribe 20 (some []) true,
       Op.advance 10, Op.gesture]).subscriptions ∧
    (run initWorld
      [Op.subscribe 10 (some [0]) true, Op.subscribe 20 (some []) true,
       Op.advance 10]).nextHandle = 2 ∧
    (run initWorld
      [Op.subscribe 10 (some [0]) true, Op.subscribe 20 (some []) true,
       Op.advance 10, Op.gesture]).nextHandle = 3 ∧
    timeoutOf (run initWorld
      [Op.subscribe 10 (some [0]) true, Op.subscribe 20 (some []) true,
       Op.advance 10, Op.gesture]) 1 = some ⟨1, 1, 20⟩ := by
  decide

/-- C7: invoking an unsubscribe handle a second time is a no-op: the entry is
no longer found in the live array (`indexOf` misses), its `timeout` field is
already null so `clearTimeout` does nothing, and the whole state is unchanged. -/
theorem unsubscribeTwiceNoOp (w : World) (hnd : w.subscriptions.Nodup)
    (sid : Nat) (hsid : sid < w.subs.length) :
    remove (remove w sid) sid = remove w sid := by
  have hto : timeoutOf (remove w sid) sid = none :=
    clearTimeout_timeoutOf_self w sid
  have hmem : sid ∉ (remove w sid).subscriptions := by
    rw [remove_subscriptions]
    exact not_mem_removeFromList_self hnd
  have hlen : sid < (remove w sid).subs.length := by
    rw [remove_subs_length]
    exact hsid
  have hs2 : (remove w sid).subs[sid]? = some (remove w sid).subs[sid] :=
    List.getElem?_eq_getElem hlen
  have hs2to : (remove w sid).subs[sid].timeout = none := by
    have := timeoutOf_eq_of_some hs2
    rw [hto] at this
    exact this.symm
  have hclear2 : clearTimeout (remove w sid) sid = remove w sid := by
    unfold clearTimeout
    simp only [hs2, hs2to]
  have hre : remove (remove w sid) sid =
      { clearTimeout (remove w sid) sid with
        subscriptions := removeFromList
          (clearTimeout (remove w sid) sid).subscriptions sid } := rfl
  rw [hre, hclear2, removeFromList_of_not_mem hmem]

/-- C7 witness: subscribe once and unsubscribe twice. -/
theorem unsubscribeTwiceNoOpWitness :
    remove (remove (run initWorld [Op.subscribe 5 none true]) 0) 0 =
      remove (run initWorld [Op.subscribe 5 none true]) 0 :=
  unsubscribeTwiceNoOp (run initWorld [Op.subscribe 5 none true])
    (by decide) 0 (by decide)

/-- C8 (amended): under non-re-entrant callbacks, a single gesture event
updates each live subscription independently: whatever the rest of the
registry looks like, a subscription's contribution to the trace and its
re-armed deadline are determined by its own record and the clock alone —
two providers agreeing on subscription `sid`'s record and on the clock
produce identical outcomes for `sid`.  (As stated the claim is false: with a
re-entrant callback one subscription's callback determines whether a
neighbour is refreshed at all; see the counterexample.) -/
theorem gestureIndependentPerSubscription (u v : World) (hwfu : WF u)
    (hwfv : WF v) (hpu : PureWorld u) (hpv : PureWorld v) (sid : Nat)
    (hmu : sid ∈ u.subscriptions) (hmv : sid ∈ v.subscriptions)
    (hnow : u.now = v.now) (s : InteractionSubscription)
    (hsu : u.subs[sid]? = some s) (hsv : v.subs[sid]? = some s) :
    (∃ E : List Event,
      evFor (onPanResponderCapture u).1.events sid = evFor u.events sid ++ E ∧
      evFor (onPanResponderCapture v).1.events sid = evFor v.events sid ++ E) ∧
    (timeoutOf (onPanResponderCapture u).1 sid).map Timer.deadline =
      some (u.now + s.duration) ∧
    (timeoutOf (onPanResponderCapture v).1 sid).map Timer.deadline =
      some (v.now + s.duration) := by
  obtain ⟨hAu, hBu, _, _⟩ := hwfu
  obtain ⟨hAv, hBv, _, _⟩ := hwfv
  rw [onPanResponderCapture_pure_eq hpu, onPanResponderCapture_pure_eq hpv]
  obtain ⟨⟨hu, hgsu⟩, hgeu⟩ :=
    processList_spec u.subscriptions u hpu hAu hBu sid hmu s hsu
  obtain ⟨⟨hv2, hgsv⟩, hgev⟩ :=
    processList_spec v.subscriptions v hpv hAv hBv sid hmv s hsv
  refine ⟨⟨if s.timeout = none ∧ s.onActive.isSome
           then [⟨sid, true, u.now⟩] else [], hgeu, by rw [hgev, hnow]⟩, ?_, ?_⟩
  · rw [timeoutOf, hgsu]
    rfl
  · rw [timeoutOf, hgsv]
    rfl

/-- C8 witness: two one-subscription providers with the same record for
subscription 0 (duration 5), different clocks aside — here both at 0. -/
theorem gestureIndependentPerSubscriptionWitness :
    (∃ E : List Event,
      evFor (onPanResponderCapture
        (run initWorld [Op.subscribe 5 (some []) true])).1.events 0 =
        evFor (run initWorld [Op.subscribe 5 (some []) true]).events 0 ++ E ∧
      evFor (onPanResponderCapture
        (run initWorld [Op.subscribe 5 (some []) true,
          Op.subscribe 9 none false])).1.events 0 =
        evFor (run initWorld [Op.subscribe 5 (some []) true,
          Op.subscribe 9 none false]).events 0 ++ E) ∧
    (timeoutOf (onPanResponderCapture
      (run initWorld [Op.subscribe 5 (some []) true])).1 0).map Timer.deadline =
      some ((run initWorld [Op.subscribe 5 (some []) true]).now + 5) ∧
    (timeoutOf (onPanResponderCapture
      (run initWorld [Op.subscribe 5 (some []) true,
        Op.subscribe 9 none false])).1 0).map Timer.deadline =
      some ((run initWorld [Op.subscribe 5 (some []) true,
        Op.subscribe 9 none false]).now + 5) :=
  gestureIndependentPerSubscription
    (run initWorld [Op.subscribe 5 (some []) true])
    (run initWorld [Op.subscribe 5 (some []) true, Op.subscribe 9 none false])
    (by decide) (by decide) (by decide) (by decide) 0 (by decide) (by decide)
    (by decide) ⟨5, some [], true, some ⟨0, 0, 5⟩⟩ (by decide) (by decide)

/-- C8 counterexample: two runs identical except for subscription 0's
callback effects; subscription 1's pre-gesture record is identical in both
(duration 6, pending with handle 1, deadline 6) and the clocks agree, yet
after one gesture subscription 1 is refreshed to deadline 10 in the first run
and left unrefreshed at deadline 6 in the second — its outcome depended on
subscription 0's callback, not only on its own state. -/
theorem neighborCallbackAffectsOtherSubscription :
    (run initWorld [Op.subscribe 4 (some []) true, Op.subscribe 6 (some []) true,
      Op.advance 4]).subs[1]? =
      (run initWorld [Op.subscribe 4 (some [0]) true,
        Op.subscribe 6 (some []) true, Op.advance 4]).subs[1]? ∧
    (run initWorld [Op.subscribe 4 (some []) true, Op.subscribe 6 (some []) true,
      Op.advance 4]).now =
      (run initWorld [Op.subscribe 4 (some [0]) true,
        Op.subscribe 6 (some []) true, Op.advance 4]).now ∧
    timeoutOf (run initWorld [Op.subscribe 4 (some []) true,
      Op.subscribe 6 (some []) true, Op.advance 4, Op.gesture]) 1 =
      some ⟨3, 1, 10⟩ ∧
    timeoutOf (run initWorld [Op.subscribe 4 (some [0]) true,
      Op.subscribe 6 (some []) true, Op.advance 4, Op.gesture]) 1 =
      some ⟨1, 1, 6⟩ := by
  decide

/-- C9: the two convenience registrations are definitionally the plain
`subscribe` with the corresponding callback fixed to null — same resulting
state and same returned handle. -/
theorem subscribeSugarEquivalence (w : World) (d : Nat)
    (a : Option (List Nat)) (i : Bool) :
    subscribeForActivity w d a = subscribe w d a false ∧
    subscribeForInactivity w d i = subscribe w d none i :=
  ⟨rfl, rfl⟩

/-- C10: `stopInactiveTimer` and `refreshInactiveTimer` (and
`startInactiveTimer`, which delegates) never invoke a subscriber callback —
the trace is unchanged — and never change the membership of the live set. -/
theorem stopAndRefreshAreSilent (w : World) :
    (stopInactiveTimer w).events = w.events ∧
    (stopInactiveTimer w).subscriptions = w.subscriptions ∧
    (refreshInactiveTimer w).events = w.events ∧
    (refreshInactiveTimer w).subscriptions = w.subscriptions ∧
    (startInactiveTimer w).events = w.events ∧
    (startInactiveTimer w).subscriptions = w.subscriptions := by
  obtain ⟨h1, h2⟩ := foldl_clearTimeout_keeps w.subscriptions w
  obtain ⟨h3, h4⟩ := foldl_refreshTimeout_keeps w.subscriptions w
  exact ⟨h1, h2, h3, h4, h3, h4⟩

/-- C4: after `refreshTimeout`, with no further refresh or clear, running the
clock to any instant strictly before `duration` has elapsed produces no
callback for the subscription and leaves it pending; running the clock to or
past the deadline invokes `inactive()` exactly once — `onInactive` appears
exactly once in its trace slice, stamped exactly `duration` after the arming
instant — and the timer is then disarmed, so `isPending()` is false
immediately after the firing. -/
theorem inactiveFiresExactlyAtDeadline (w : World) (hwf : WF w) (sid : Nat)
    (s : InteractionSubscription) (hs : w.subs[sid]? = some s) (target : Nat) :
    (target < w.now + s.duration →
      evFor (advanceTo (refreshTimeout w sid) target).events sid =
        evFor w.events sid ∧
      isPending (advanceTo (refreshTimeout w sid) target) sid = true) ∧
    (w.now + s.duration ≤ target →
      evFor (advanceTo (refreshTimeout w sid) target).events sid =
        evFor w.events sid ++
          (if s.onInactive then [⟨sid, false, w.now + s.duration⟩] else []) ∧
      isPending (advanceTo (refreshTimeout w sid) target) sid = false) := by
  have hwf1 : WF (refreshTimeout w sid) := refreshTimeout_WF hwf sid
  have hs1 : (refreshTimeout w sid).subs[sid]? =
      some ⟨s.duration, s.onActive, s.onInactive,
        some ⟨w.nextHandle, sid, w.now + s.duration⟩⟩ :=
    refreshTimeout_getElem_self w hs
  have ht1 : (⟨w.nextHandle, sid, w.now + s.duration⟩ : Timer) ∈
      (refreshTimeout w sid).timers := refreshTimeout_armed_mem w hs
  have hev1 : (refreshTimeout w sid).events = w.events :=
    refreshTimeout_events w sid
  constructor
  · intro hlt
    obtain ⟨a1, a2, a3⟩ := advanceLoop_before_deadline
      (refreshTimeout w sid).timers.length (refreshTimeout w sid) target sid
      _ _ hwf1 hs1 rfl ht1 rfl hlt
    constructor
    · show evFor (advanceLoop (refreshTimeout w sid).timers.length
        (refreshTimeout w sid) target).events sid = _
      rw [a3, hev1]
    · show ((advanceLoop (refreshTimeout w sid).timers.length
        (refreshTimeout w sid) target).subs[sid]?.bind
          InteractionSubscription.timeout).isSome = true
      rw [a1]
      rfl
  · intro hge
    obtain ⟨a1, a2, a3⟩ := advanceLoop_fires
      (refreshTimeout w sid).timers.length (refreshTimeout w sid) target sid
      _ _ hwf1 hs1 rfl ht1 rfl hge (Nat.le_refl _)
    constructor
    · show evFor (advanceLoop (refreshTimeout w sid).timers.length
        (refreshTimeout w sid) target).events sid = _
      rw [a1, hev1]
    · show ((advanceLoop (refreshTimeout w sid).timers.length
        (refreshTimeout w sid) target).subs[sid]?.bind
          InteractionSubscription.timeout).isSome = false
      have : ((advanceLoop (refreshTimeout w sid).timers.length
          (refreshTimeout w sid) target).subs[sid]?.bind
            InteractionSubscription.timeout) = none := a2
      rw [this]
      rfl

/-- C3 (amended): invoking an unsubscribe handle synchronously cancels the
subscription's pending deferred callback in the same operation that removes
it from the live set (its `timeout` is nulled, no scheduled timer of its
remains in the queue, and it is out of the live array); and provided no
callback re-enters the registry — in particular no gesture notification
re-arms the removed subscription from mid-iteration — no `onActive` or
`onInactive` invocation for it is ever recorded afterwards, whatever public
operations follow.  (The unamended "no call ever occurs" is false: a callback
that unsubscribes its own subscription during gesture handling gets re-armed
by the still-running `forEach` body; see the counterexample.) -/
theorem unsubscribeSilencesWithoutReentrancy (w : World) (hwf : WF w)
    (hp : PureWorld w) (sid : Nat) (hsid : sid < w.subs.length)
    (ops : List Op) (hops : ∀ op ∈ ops, opPure op) :
    timeoutOf (remove w sid) sid = none ∧
    (∀ t ∈ (remove w sid).timers, t.subId ≠ sid) ∧
    sid ∉ (remove w sid).subscriptions ∧
    evFor (run (remove w sid) ops).events sid = evFor w.events sid := by
  have hto : timeoutOf (remove w sid) sid = none :=
    clearTimeout_timeoutOf_self w sid
  have hnt : ∀ t ∈ (remove w sid).timers, t.subId ≠ sid := by
    intro t ht he
    have hwfr := clearTimeout_WF hwf sid
    have hlink := (hwfr.2.2.2 t ht).2.2
    rw [he] at hlink
    rw [clearTimeout_timeoutOf_self w sid] at hlink
    exact Option.noConfusion hlink
  have hnm : sid ∉ (remove w sid).subscriptions := by
    rw [remove_subscriptions]
    exact not_mem_removeFromList_self hwf.2.1
  have hgone : Gone (remove w sid) sid :=
    ⟨hnm, hnt, by rw [remove_subs_length]; exact hsid, remove_WF hwf sid,
      remove_PureWorld hp sid⟩
  obtain ⟨_, hev⟩ := run_gone ops (remove w sid) sid hgone hops
  refine ⟨hto, hnt, hnm, ?_⟩
  rw [hev]
  show evFor (clearTimeout w sid).events sid = _
  rw [clearTimeout_events]

/-- C3 witness: subscribe, unsubscribe, then run the clock far past the
duration: the timer was cancelled synchronously and no callback ever fires. -/
theorem unsubscribeSilencesWithoutReentrancyWitness :
    timeoutOf (remove (run initWorld [Op.subscribe 5 (some []) true]) 0) 0 =
      none ∧
    (∀ t ∈ (remove (run initWorld [Op.subscribe 5 (some []) true]) 0).timers,
      t.subId ≠ 0) ∧
    0 ∉ (remove (run initWorld
      [Op.subscribe 5 (some []) true]) 0).subscriptions ∧
    evFor (run (remove (run initWorld [Op.subscribe 5 (some []) true]) 0)
        [Op.advance 100]).events 0 =
      evFor (run initWorld [Op.subscribe 5 (some []) true]).events 0 :=
  unsubscribeSilencesWithoutReentrancy
    (run initWorld [Op.subscribe 5 (some []) true]) (by decide) (by decide) 0
    (by decide) [Op.advance 100] (by decide)

/-- C3 counterexample: a subscription whose `onActive` callback unsubscribes
it.  It goes inactive at time 10 (one `onInactive` so far); the gesture at
time 10 fires `onActive` and the callback removes it — the live set becomes
empty — but the still-running `forEach` body then calls `refreshTimeout` on
the captured subscription object, re-arming its timer; at time 20 the
deferred callback fires `onInactive` for the long-unsubscribed subscription:
a second `onInactive`, after removal, refuting "no further call ever
occurs". -/
theorem reentrantUnsubscribeStillFiresInactive :
    (run initWorld [Op.subscribe 10 (some [0]) true, Op.advance 10,
      Op.gesture]).subscriptions = [] ∧
    inactiveCount (run initWorld [Op.subscribe 10 (some [0]) true,
      Op.advance 10, Op.gesture]).events 0 = 1 ∧
    inactiveCount (run initWorld [Op.subscribe 10 (some [0]) true,
      Op.advance 10, Op.gesture, Op.advance 20]).events 0 = 2 := by
  decide

/-- C4 witness: a subscription of duration 10 armed at time 0 in a
one-subscription provider; running the clock to 12 fires `onInactive` once,
stamped at time 10, and leaves the subscription not pending. -/
theorem inactiveFiresExactlyAtDeadlineWitness :
    evFor (advanceTo (refreshTimeout (subscribe initWorld 10 none true).1 0)
        12).events 0 =
      evFor (subscribe initWorld 10 none true).1.events 0 ++
        [⟨0, false, (subscribe initWorld 10 none true).1.now + 10⟩] ∧
    isPending (advanceTo (refreshTimeout (subscribe initWorld 10 none true).1 0)
        12) 0 = false :=
  (inactiveFiresExactlyAtDeadline (subscribe initWorld 10 none true).1
    (by decide) 0 ⟨10, none, true, some ⟨0, 0, 10⟩⟩ (by decide) 12).2
    (by decide)

end RNIP
